import Mathlib

set_option maxRecDepth 8000

/-!
Verification of the Steam game-data normalization and analytics pipeline
(source: steam_streamlit_app.py).  The development shallowly embeds the
`clean_data` function with its four field parsers (`clean_price`,
`clean_rating`, `clean_tags`, `clean_date`), the column-resolution and
fallback logic, and the analytics functions
(`plot_rating_price_correlation` with its band classification in `main`,
`plot_tags_bar`, `find_high_value_games`), and proves or refutes the
specified properties against these definitions.

Modelling conventions, stated once here and referenced below:
* A DataFrame cell is a `Cell`: missing (`NaN`/`None`), a string, a number,
  a Python list value, or a pandas `Timestamp`.  Python floats are modelled
  as exact rationals; `str()` of a float prints a plain decimal expansion
  (the scientific notation Python uses for very large or very small
  magnitudes is outside the model, as are non-ASCII Unicode digits in the
  regexes).  Rationals are always constructed through `mkRat` or the
  `qAdd`/`qSub`/`qMul`/`qDivNat` helpers so that every definition stays
  computable by the kernel.
* Python code that can raise is `Except String`-valued; the string is an
  abbreviation of the exception text.  Code that pandas executes
  column-by-column is modelled with lists of cells in row order.
* `Series.apply` materializes a new column; pandas infers a datetime dtype
  for the result exactly when at least one produced value is a `Timestamp`.
  A column created from the scalar `np.nan`, an empty column, or an
  all-`NaN` applied column is float-typed, and `.dt` on a column that is
  not datetime-typed raises
  `AttributeError: Can only use .dt accessor with datetimelike values`.
  A `.loc` assignment into an existing column never upgrades a
  non-datetime column to datetime (pandas upcasts to object), which the
  model tracks with a Boolean datetime flag per assignment of the
  release-date column.
* `pd.isna` applied to a Python list value returns a Boolean array, and
  truth-testing an array of two or more elements raises
  `ValueError: the truth value of an array ... is ambiguous`; for shorter
  arrays the test is falsy and the parsers fall through to their default.
-/

namespace Steam

/-! ## Characters, digit strings and decimal numbers -/

/-- Numeric value of an ASCII digit character. -/
def chVal (c : Char) : Nat := c.toNat - 48

/-- Reading a big-endian digit-character list as a natural number
(the effect of Python `int`/`float` on a digit substring). -/
def readNat (cs : List Char) : Nat := cs.foldl (fun a c => 10 * a + chVal c) 0

/-- Little-endian base-10 digits, fuel-recursive so that the kernel can
evaluate it. -/
def digitsAuxLE : Nat → Nat → List Nat
  | 0, _ => []
  | fuel + 1, n => if n = 0 then [] else n % 10 :: digitsAuxLE fuel (n / 10)

/-- Little-endian base-10 digits of `n` (empty for `0`). -/
def digitsLE (n : Nat) : List Nat := digitsAuxLE n n

/-- Recombining little-endian digits. -/
def ofDigLE (l : List Nat) : Nat := l.foldr (fun d a => 10 * a + d) 0

/-- Big-endian digit characters of `n` (empty for `0`). -/
def natCharsBE (n : Nat) : List Char := ((digitsLE n).map Nat.digitChar).reverse

/-- Decimal rendering of a natural number, as Python prints it. -/
def natStr (n : Nat) : List Char := if n = 0 then ['0'] else natCharsBE n

/-- A number printed with at least two digits, zero-padded on the left
(the two-digit fields of a printed `Timestamp`, and the exponent of a
scientific-notation float). -/
def pad2 (n : Nat) : List Char := if n < 10 then '0' :: natStr n else natStr n

/-- The fractional digit block of a float repr: `f` printed with exactly
`len` digits, zero-padded on the left. -/
def fracPad (len f : Nat) : List Char :=
  List.replicate (len - (digitsLE f).length) '0' ++ natCharsBE f

/-- The plain-decimal form of `str()` of a Python float: the expansion
`intpart.fracpart` with at least one fractional digit.  The number of
printed fractional digits is `q.den` — any exponent `L` with
`q.den ∣ 10 ^ L` yields the same value back when re-parsed, and `q.den`
is such an exponent whenever the denominator is a divisor of a power of
ten (`dvd_ten_pow_self` below); Python prints the shortest form, which
parses to the same rational.  The sign is dropped: the digit-extraction
regexes never read a minus sign.  For rationals with no finite decimal
expansion the printed digits are a truncation, which is irrelevant to
every theorem below. -/
def plainFloatChars (q : Rat) : List Char :=
  let L := q.den
  let m := q.num.natAbs * 10 ^ L / q.den
  natStr (m / 10 ^ L) ++ '.' :: fracPad L (m % 10 ^ L)

/-- Python prints a float in scientific notation exactly when its
magnitude is below `1e-4` or at least `1e16`. -/
def pySci (q : Rat) : Bool :=
  let p := mkRat (q.num.natAbs : Int) q.den
  (decide (0 < p) && decide (p < mkRat 1 10000)) || decide (mkRat 10000000000000000 1 ≤ p)

/-- Least `k` at or above the start value with `d ≤ n * 10 ^ k` — the
magnitude of the negative exponent of a small float — fuel-recursive so
that the kernel can evaluate it. -/
def sciKAux (n d : Nat) : Nat → Nat → Nat
  | 0, k => k
  | fuel + 1, k => if d ≤ n * 10 ^ k then k else sciKAux n d fuel (k + 1)

/-- The mantissa of a scientific-notation float as Python prints it: an
integral mantissa has no fractional part (`1e-05`, not `1.0e-05`),
otherwise the plain form is used (`1.2e-05`). -/
def mantChars (m : Rat) : List Char :=
  if m.den = 1 then natStr m.num.natAbs else plainFloatChars m

/-- The scientific-notation form of `str()` of a Python float: a
mantissa in `[1, 10)`, then `e`, the exponent's sign and the exponent
printed with at least two digits.  The sign of the number itself is
dropped as in the plain form. -/
def sciFloatChars (q : Rat) : List Char :=
  let p := mkRat (q.num.natAbs : Int) q.den
  if p < 1 then
    let k := sciKAux p.num.natAbs p.den p.den 1
    mantChars (mkRat (p.num * ((10 ^ k : Nat) : Int)) p.den) ++ 'e' :: '-' :: pad2 k
  else
    let e := (digitsLE (p.num.natAbs / p.den)).length - 1
    mantChars (mkRat p.num (p.den * 10 ^ e)) ++ 'e' :: '+' :: pad2 e

/-- `str()` of a (finite) Python float: scientific notation for
magnitudes below `1e-4` and at or above `1e16`, the plain decimal
expansion in between. -/
def pyFloatChars (q : Rat) : List Char :=
  if pySci q then sciFloatChars q else plainFloatChars q

/-- Split a character list at the first dot. -/
def splitAtDot : List Char → List Char × List Char
  | [] => ([], [])
  | c :: cs =>
    if c = '.' then ([], cs)
    else
      let p := splitAtDot cs
      (c :: p.1, p.2)

/-- Value of a decimal literal `digits[.digits]`, as Python `float` reads
the substring the price regex extracts. -/
def parseDec (cs : List Char) : Rat :=
  let p := splitAtDot cs
  mkRat ((readNat p.1 * 10 ^ p.2.length + readNat p.2 : Nat) : Int) (10 ^ p.2.length)

/-- The greedy match of the regex `\d+\.?\d*` starting at a position whose
first character is a digit: a digit run, optionally a dot and a second
digit run. -/
def matchNum (cs : List Char) : List Char :=
  let ds := cs.takeWhile Char.isDigit
  match cs.drop ds.length with
  | c :: r2 => if c = '.' then ds ++ c :: r2.takeWhile Char.isDigit else ds
  | [] => ds

/-- `re.search` for `\d+\.?\d*`: the leftmost match, scanning start
positions from the left. -/
def searchNum : List Char → Option (List Char)
  | [] => none
  | c :: cs => if c.isDigit then some (matchNum (c :: cs)) else searchNum cs

/-- The numeric part of `clean_price` on a string form: first regex match
read as a float, `0.0` if there is none. -/
def extractPrice (cs : List Char) : Rat :=
  match searchNum cs with
  | some mtc => parseDec mtc
  | none => mkRat 0 1

/-! ## Dates -/

/-- A calendar date, modelling the pandas `Timestamp` values this pipeline
creates (always midnight). -/
structure Date where
  y : Nat
  m : Nat
  d : Nat
deriving DecidableEq

/-- Gregorian leap year. -/
def isLeap (y : Nat) : Bool := (y % 4 == 0 && y % 100 != 0) || y % 400 == 0

/-- Days in a month. -/
def daysInMonth (y m : Nat) : Nat :=
  if m = 2 then (if isLeap y then 29 else 28)
  else if m = 4 ∨ m = 6 ∨ m = 9 ∨ m = 11 then 30
  else 31

/-- Lexicographic key of a date. -/
def dateKey (dt : Date) : Nat := dt.y * 10000 + dt.m * 100 + dt.d

/-- The nanosecond `Timestamp` range: the earliest representable midnight
is 1677-09-22 and the latest full day starts 2262-04-11; `pd.to_datetime`
raises outside it. -/
def inTsBounds (dt : Date) : Bool :=
  16770922 ≤ dateKey dt && dateKey dt ≤ 22620411

/-- A calendar-valid, `Timestamp`-representable date. -/
def validDate (dt : Date) : Bool :=
  1 ≤ dt.m && dt.m ≤ 12 && 1 ≤ dt.d && dt.d ≤ daysInMonth dt.y dt.m && inTsBounds dt

/-- Split on a separator character, Python `str.split` semantics
(`"" → [""]`, separators at the ends produce empty pieces). -/
def splitOn (x : Char) : List Char → List (List Char)
  | [] => [[]]
  | c :: cs =>
    match splitOn x cs with
    | [] => [[]]
    | g :: gs => if c = x then [] :: g :: gs else (c :: g) :: gs

/-- All characters are ASCII digits. -/
def allDigits (cs : List Char) : Bool := cs.all Char.isDigit

/-- `pd.to_datetime` on a 4-digit year string: January 1st of that year,
raising (here `none`) outside the `Timestamp` range. -/
def pdYear (y : Nat) : Option Date :=
  if 1678 ≤ y && y ≤ 2262 then some ⟨y, 1, 1⟩ else none

/-- `pd.to_datetime` on a full string, modelled for the shapes this
pipeline feeds it (the guard regex has already required a
`digits-digits-digits` prefix): `Y-M-D` with a 4-digit year and 1-2 digit
month and day, optionally followed by the midnight time part that
printed `Timestamp`s carry.  Anything else raises, i.e. `none`. -/
def pdToDatetimeChars (cs : List Char) : Option Date :=
  match splitOn '-' cs with
  | [ys, ms, ds0] =>
    let dparts := splitOn ' ' ds0
    let dd := match dparts with
      | [d1] => some d1
      | [d1, t1] => if t1 = "00:00:00".toList then some d1 else none
      | _ => none
    match dd with
    | some d1 =>
      if allDigits ys && ys.length = 4 && allDigits ms && 1 ≤ ms.length && ms.length ≤ 2
          && allDigits d1 && 1 ≤ d1.length && d1.length ≤ 2 then
        let dt : Date := ⟨readNat ys, readNat ms, readNat d1⟩
        if validDate dt then some dt else none
      else none
    | none => none
  | _ => none

/-- `re.match` of `\d{4}-\d{1,2}-\d{1,2}`: the day part, one or two
digits with nothing further required. -/
def dayPart : List Char → Bool
  | d1 :: _ => d1.isDigit
  | [] => false

/-- The `\d{1,2}-\d{1,2}` tail of the date prefix regex, with the
backtracking alternation made explicit. -/
def monthDashDay (cs : List Char) : Bool :=
  (match cs with
   | m1 :: m2 :: '-' :: r => m1.isDigit && m2.isDigit && dayPart r
   | _ => false) ||
  (match cs with
   | m1 :: '-' :: r => m1.isDigit && dayPart r
   | _ => false)

/-- `re.match(r'\d{4}-\d{1,2}-\d{1,2}', s)`: anchored prefix match. -/
def prefixYMD : List Char → Bool
  | a :: b :: c :: d :: '-' :: rest =>
    a.isDigit && b.isDigit && c.isDigit && d.isDigit && monthDashDay rest
  | _ => false

/-- `re.search(r'(\d{4})', s)`: the leftmost window of four consecutive
digits, fuel-recursive. -/
def find4DigitsAux : Nat → List Char → Option Nat
  | 0, _ => none
  | fuel + 1, a :: b :: c :: d :: rest =>
    if a.isDigit && b.isDigit && c.isDigit && d.isDigit then some (readNat [a, b, c, d])
    else find4DigitsAux fuel (b :: c :: d :: rest)
  | _ + 1, _ => none

/-- First four-consecutive-digit window of a string. -/
def find4Digits (cs : List Char) : Option Nat := find4DigitsAux cs.length cs

/-- The string branch of `clean_date`: full-date prefix first, then the
year-only fallback, `none` (Python `NaN`) when both fail or parsing
raises. -/
def dateFromChars (cs : List Char) : Option Date :=
  if prefixYMD cs then pdToDatetimeChars cs
  else
    match find4Digits cs with
    | some y => pdYear y
    | none => none

/-! ## Cells and the `str()` view -/

/-- One DataFrame cell, raw or cleaned. -/
inductive Cell where
  | null
  | str (s : String)
  | num (q : Rat)
  | tags (xs : List String)
  | date (d : Date)
deriving DecidableEq

/-- A raw CSV cell: missing, text, or numeric.  List and timestamp cells
only appear in already-normalized columns. -/
def rawCell : Cell → Bool
  | .null => true
  | .str _ => true
  | .num _ => true
  | _ => false

/-- A numeric cell whose value Python prints in plain decimal notation
(magnitude zero, or at least `1e-4` and below `1e16`); vacuous for
non-numeric cells.  Scientific-notation values do not survive a
re-parse: the price regex reads only the mantissa. -/
def plainNum : Cell → Bool
  | .num q => !pySci q
  | _ => true

/-- The apostrophe character, used by the Python list repr. -/
def quoteCh : Char := Char.ofNat 39

/-- Python `repr` of a list of strings, e.g. `['Action', 'Indie']`. -/
def reprTags (xs : List String) : List Char :=
  '[' :: (String.intercalate ", " (xs.map (fun s => String.mk (quoteCh :: s.toList ++ [quoteCh])))).toList
    ++ [']']

/-- `str()` of a `Timestamp`: `YYYY-MM-DD 00:00:00`. -/
def dateChars (dt : Date) : List Char :=
  natStr dt.y ++ '-' :: pad2 dt.m ++ '-' :: pad2 dt.d ++ " 00:00:00".toList

/-- Python `str()` of a cell value. -/
def pyStr : Cell → List Char
  | .null => "nan".toList
  | .str s => s.toList
  | .num q => pyFloatChars q
  | .tags xs => reprTags xs
  | .date dt => dateChars dt

/-- Exception text for truth-testing a multi-element Boolean array
(`pd.isna` of a list cell inside an `if`). -/
def ambiguousMsg : String :=
  "ValueError: The truth value of an array with more than one element is ambiguous."

/-! ## The four field parsers of `clean_data` -/

/-- `clean_price`: missing, `未知` and `免费` map to `0.0`; otherwise the
first `\d+\.?\d*` match of the string form is read as a float, `0.0`
when there is none.  `pd.isna` of a list of two or more elements raises. -/
def cleanPrice : Cell → Except String Rat
  | .null => .ok (mkRat 0 1)
  | .str s => .ok (if s = "未知" ∨ s = "免费" then mkRat 0 1 else extractPrice s.toList)
  | .tags xs =>
    if 2 ≤ xs.length then .error ambiguousMsg
    else .ok (extractPrice (pyStr (.tags xs)))
  | c => .ok (extractPrice (pyStr c))

/-- `re.search(r'(\d+)%', s)`: the first maximal digit run immediately
followed by a percent sign (an equivalent reformulation of the
backtracking search, since a shorter suffix of a failed run is followed
by a digit, never by `%`). -/
def ratingPercentAux : Nat → List Char → Option Nat
  | 0, _ => none
  | _ + 1, [] => none
  | fuel + 1, c :: rest =>
    if c.isDigit then
      let run := (c :: rest).takeWhile Char.isDigit
      match (c :: rest).drop run.length with
      | '%' :: _ => some (readNat run)
      | after => ratingPercentAux fuel after
    else ratingPercentAux fuel rest

/-- `clean_rating`: missing and `未知` are unknown; a string containing a
percent sign yields the integer before it; a numeric cell passes through
as a float; everything else is unknown. -/
def cleanRating : Cell → Except String (Option Rat)
  | .null => .ok none
  | .str s => .ok
      (if s = "未知" then none
       else if s.toList.contains '%' then
         (ratingPercentAux s.toList.length s.toList).map (fun n => mkRat n 1)
       else none)
  | .num q => .ok (some q)
  | .tags xs => if 2 ≤ xs.length then .error ambiguousMsg else .ok none
  | .date _ => .ok none

/-- Removal of every occurrence of one character
(Python `str.replace(c, "")`). -/
def removeChar (x : Char) (cs : List Char) : List Char := cs.filter (fun c => c ≠ x)

/-- Python whitespace stripped by `str.strip()` (ASCII part). -/
def pySpace : List Char := [' ', '\t', '\n', '\r', Char.ofNat 11, Char.ofNat 12]

/-- Python `str.strip()`. -/
def pyStrip (cs : List Char) : List Char :=
  ((cs.dropWhile (pySpace.contains ·)).reverse.dropWhile (pySpace.contains ·)).reverse

/-- `clean_tags`: missing, `未知` and the literal `[]` give the empty
list; a string has its bracket and quote characters removed in the order
the source replaces them, is split on commas, and every piece is
stripped — empty pieces are kept; a falsy cleaned string gives the empty
list; non-string values give the empty list, except that `pd.isna` of a
list of two or more elements raises. -/
def cleanTags : Cell → Except String (List String)
  | .null => .ok []
  | .str s => .ok
      (if s = "未知" ∨ s = "[]" then []
       else
         let cleaned := removeChar '"' (removeChar quoteCh (removeChar ']' (removeChar '[' s.toList)))
         if cleaned.isEmpty then []
         else (splitOn ',' cleaned).map (fun p => String.mk (pyStrip p)))
  | .tags xs => if 2 ≤ xs.length then .error ambiguousMsg else .ok []
  | _ => .ok []

/-- `clean_date`: missing and `未知` are unknown; a string matching the
`Y-M-D` prefix regex is parsed in full by `pd.to_datetime` (a parse
failure is caught to unknown); otherwise the first 4-digit window is
taken as a year; a `Timestamp` passes through unchanged
(its printed form matches the prefix regex and `pd.to_datetime` of a
`Timestamp` is the identity); other values go through their `str()`
form. -/
def cleanDate : Cell → Except String (Option Date)
  | .null => .ok none
  | .str s => .ok (if s = "未知" then none else dateFromChars s.toList)
  | .date dt => .ok (some dt)
  | .tags xs =>
    if 2 ≤ xs.length then .error ambiguousMsg
    else .ok (dateFromChars (pyStr (.tags xs)))
  | .num q => .ok (dateFromChars (pyFloatChars q))

/-- `clean_price` as a column transformer (the parsed float is stored back
into the cell). -/
def cleanPriceCell (c : Cell) : Except String Cell := (cleanPrice c).map .num

/-- `clean_rating` as a column transformer (`NaN` for unknown). -/
def cleanRatingCell (c : Cell) : Except String Cell :=
  (cleanRating c).map (fun r => r.elim .null .num)

/-- `clean_tags` as a column transformer. -/
def cleanTagsCell (c : Cell) : Except String Cell := (cleanTags c).map .tags

/-- `clean_date` as a column transformer (`NaT`/`NaN` for unknown). -/
def cleanDateCell (c : Cell) : Except String Cell :=
  (cleanDate c).map (fun r => r.elim .null .date)

/-! ## DataFrames

A DataFrame is its ordered list of named columns; `setCol` overwrites an
existing column in place or appends a new one at the end, which is how
`df[name] = values` behaves. -/

abbrev Table := List (String × List Cell)

/-- Column names in declaration order (`df.columns`). -/
def colNames (t : Table) : List String := t.map (·.1)

/-- `name in df.columns`. -/
def hasCol (n : String) (t : Table) : Bool := t.any (fun c => c.1 == n)

/-- `df[name]` (the empty column when absent; every use below is guarded
by `hasCol`). -/
def getCol (n : String) (t : Table) : List Cell :=
  ((t.find? (fun c => c.1 == n)).map (·.2)).getD []

/-- `df[name] = values`. -/
def setCol (n : String) (cs : List Cell) (t : Table) : Table :=
  if hasCol n t then t.map (fun c => if c.1 == n then (n, cs) else c)
  else t ++ [(n, cs)]

/-- Row count, as the length of the first column (`0` for an empty
frame); all columns of a real DataFrame have equal length. -/
def nRows (t : Table) : Nat :=
  match t with
  | [] => 0
  | c :: _ => c.2.length

/-- `Series.apply f`: rows are transformed in order and the first raised
exception aborts the whole call. -/
def exMap (f : Cell → Except String Cell) : List Cell → Except String (List Cell)
  | [] => .ok []
  | c :: cs =>
    match f c with
    | .error e => .error e
    | .ok v =>
      match exMap f cs with
      | .error e => .error e
      | .ok vs => .ok (v :: vs)

/-- Missing-value test of a single cell. -/
def isNull : Cell → Bool
  | .null => true
  | _ => false

/-- `a.fillna(b)`: row-wise, missing entries of `a` replaced from `b`. -/
def fillna : List Cell → List Cell → List Cell
  | [], _ => []
  | x :: xs, [] => x :: fillna xs []
  | x :: xs, y :: ys => (if isNull x then y else x) :: fillna xs ys

/-- The Boolean masks used by the fallback rows: `Series.isna()` never
raises. -/
def isnaMask (c : Cell) : Except String Bool := .ok (isNull c)

/-- The tag mask `lambda x: len(x) == 0`: `len` of a list or string
works, `len` of a float, missing value or `Timestamp` raises
`TypeError`. -/
def lenZeroMask : Cell → Except String Bool
  | .tags xs => .ok xs.isEmpty
  | .str s => .ok (s.length == 0)
  | _ => .error "TypeError: object has no len()"

/-- Mask evaluation over a column. -/
def maskMap (mask : Cell → Except String Bool) : List Cell → Except String (List Bool)
  | [] => .ok []
  | c :: cs =>
    match mask c with
    | .error e => .error e
    | .ok b =>
      match maskMap mask cs with
      | .error e => .error e
      | .ok bs => .ok (b :: bs)

/-- Application of the parser to the masked rows of the basic column and
assignment into the current column (rows without a basic counterpart
keep their value; real frames always have equal column lengths). -/
def fillRows (f : Cell → Except String Cell) :
    List Bool → List Cell → List Cell → Except String (List Cell)
  | [], _, _ => .ok []
  | _ :: _, [], _ => .ok []
  | _ :: bs, x :: xs, [] =>
    match fillRows f bs xs [] with
    | .error e => .error e
    | .ok vs => .ok (x :: vs)
  | b :: bs, x :: xs, y :: ys =>
    match (if b then f y else .ok x) with
    | .error e => .error e
    | .ok v =>
      match fillRows f bs xs ys with
      | .error e => .error e
      | .ok vs => .ok (v :: vs)

/-- `df.loc[mask(cur), col] = df.loc[mask(cur), basic].apply(f)`: the mask
is evaluated over the whole current column first, then the parser runs on
the masked rows of the basic column in row order. -/
def rowFallback (mask : Cell → Except String Bool) (f : Cell → Except String Cell)
    (cur basic : List Cell) : Except String (List Cell) :=
  match maskMap mask cur with
  | .error e => .error e
  | .ok ms => fillRows f ms cur basic

/-! ## Column resolution: the synonym scans and warning texts -/

/-- Substring test (`pat in s` for Python strings). -/
def containsSub (pat s : List Char) : Bool := s.tails.any (fun t => pat.isPrefixOf t)

/-- Lower-cased characters of a column name (`col.lower()`). -/
def lowerChars (s : String) : List Char := s.toList.map Char.toLower

/-- Price synonym scan. -/
def priceColMatch (c : String) : Bool :=
  containsSub "价格".toList c.toList || containsSub "price".toList (lowerChars c)

/-- Rating synonym scan. -/
def ratingColMatch (c : String) : Bool :=
  containsSub "好评".toList c.toList || containsSub "rating".toList (lowerChars c)

/-- Tag synonym scan. -/
def tagColMatch (c : String) : Bool :=
  containsSub "标签".toList c.toList || containsSub "tag".toList (lowerChars c)

/-- Release-date synonym scan. -/
def dateColMatch (c : String) : Bool :=
  containsSub "发布".toList c.toList || containsSub "日期".toList c.toList
    || containsSub "date".toList (lowerChars c) || containsSub "release".toList (lowerChars c)

/-- Warning shown when no price column resolves. -/
def warnPrice : String := "警告：未找到价格列，将使用默认值0"

/-- Warning shown when no rating column resolves. -/
def warnRating : String := "警告：未找到好评率列，将使用默认值NaN"

/-- Warning shown when no tag column resolves. -/
def warnTags : String := "警告：未找到标签列，将使用默认值空列表"

/-- Warning shown when no release-date column resolves. -/
def warnDate : String := "警告：未找到发布时间列，将使用默认值NaN"

/-! ## The four column blocks of `clean_data` -/

/-- Price block: clean `原价` and `折扣价` in place; build `价格` from the
discount column with `fillna` from the original price when both exist,
from whichever exists otherwise, from the first synonym match, or as the
constant `0.0` with a warning. -/
def priceBlock (t0 : Table) : Except String (Table × List String) :=
  match (if hasCol "原价" t0 then
          (exMap cleanPriceCell (getCol "原价" t0)).map (fun cs => setCol "原价" cs t0)
         else .ok t0) with
  | .error e => .error e
  | .ok t1 =>
    match (if hasCol "折扣价" t1 then
            (exMap cleanPriceCell (getCol "折扣价" t1)).map (fun cs => setCol "折扣价" cs t1)
           else .ok t1) with
    | .error e => .error e
    | .ok t2 =>
      if hasCol "折扣价" t2 && hasCol "原价" t2 then
        .ok (setCol "价格" (fillna (getCol "折扣价" t2) (getCol "原价" t2)) t2, [])
      else if hasCol "折扣价" t2 then .ok (setCol "价格" (getCol "折扣价" t2) t2, [])
      else if hasCol "原价" t2 then .ok (setCol "价格" (getCol "原价" t2) t2, [])
      else
        match (colNames t2).filter priceColMatch with
        | pc :: _ =>
          (exMap cleanPriceCell (getCol pc t2)).map (fun cs => (setCol "价格" cs t2, []))
        | [] => .ok (setCol "价格" (List.replicate (nRows t2) (.num (mkRat 0 1))) t2, [warnPrice])

/-- Rating block: parse `详细好评率` into `好评率` when present; then
either fill unknown rows from `基本好评率`, or take the basic column
alone, or — when the basic column is absent, even if the detailed parse
already ran — rescan the synonyms, falling back to an all-`NaN` column
with a warning. -/
def ratingBlock (t0 : Table) : Except String (Table × List String) :=
  match (if hasCol "详细好评率" t0 then
          (exMap cleanRatingCell (getCol "详细好评率" t0)).map (fun cs => setCol "好评率" cs t0)
         else .ok t0) with
  | .error e => .error e
  | .ok t1 =>
    if hasCol "基本好评率" t1 && hasCol "好评率" t1 then
      (rowFallback isnaMask cleanRatingCell (getCol "好评率" t1) (getCol "基本好评率" t1)).map
        (fun cs => (setCol "好评率" cs t1, []))
    else if hasCol "基本好评率" t1 then
      (exMap cleanRatingCell (getCol "基本好评率" t1)).map (fun cs => (setCol "好评率" cs t1, []))
    else
      match (colNames t1).filter ratingColMatch with
      | rc :: _ =>
        (exMap cleanRatingCell (getCol rc t1)).map (fun cs => (setCol "好评率" cs t1, []))
      | [] => .ok (setCol "好评率" (List.replicate (nRows t1) .null) t1, [warnRating])

/-- Tag block, of the same shape as the rating block; the no-column
default is a per-row empty list. -/
def tagsBlock (t0 : Table) : Except String (Table × List String) :=
  match (if hasCol "详细标签" t0 then
          (exMap cleanTagsCell (getCol "详细标签" t0)).map (fun cs => setCol "标签列表" cs t0)
         else .ok t0) with
  | .error e => .error e
  | .ok t1 =>
    if hasCol "基本标签" t1 && hasCol "标签列表" t1 then
      (rowFallback lenZeroMask cleanTagsCell (getCol "标签列表" t1) (getCol "基本标签" t1)).map
        (fun cs => (setCol "标签列表" cs t1, []))
    else if hasCol "基本标签" t1 then
      (exMap cleanTagsCell (getCol "基本标签" t1)).map (fun cs => (setCol "标签列表" cs t1, []))
    else
      match (colNames t1).filter tagColMatch with
      | tc :: _ =>
        (exMap cleanTagsCell (getCol tc t1)).map (fun cs => (setCol "标签列表" cs t1, []))
      | [] => .ok (setCol "标签列表" (List.replicate (nRows t1) (.tags [])) t1, [warnTags])

/-- Datetime dtype inference for an applied column: pandas produces
`datetime64` exactly when at least one value is a `Timestamp`. -/
def dtFlag (cs : List Cell) : Bool :=
  cs.any (fun c => match c with | .date _ => true | _ => false)

/-- Date block, of the same shape as the rating block, additionally
tracking whether the final full assignment of `发布时间` produced a
datetime-typed column.  A `.loc` fill into an existing column keeps the
dtype of that column (a non-datetime column stays unusable for `.dt`
even if dates were written into it), and a column that predates the
block (raw CSV text) or the scalar-`NaN` default is not datetime. -/
def dateBlock (t0 : Table) : Except String ((Table × Bool) × List String) :=
  match (if hasCol "详细发布日期" t0 then
          (exMap cleanDateCell (getCol "详细发布日期" t0)).map
            (fun cs => (setCol "发布时间" cs t0, dtFlag cs))
         else .ok (t0, false)) with
  | .error e => .error e
  | .ok (t1, fl1) =>
    if hasCol "基本发布时间" t1 && hasCol "发布时间" t1 then
      (rowFallback isnaMask cleanDateCell (getCol "发布时间" t1) (getCol "基本发布时间" t1)).map
        (fun cs => ((setCol "发布时间" cs t1, fl1), []))
    else if hasCol "基本发布时间" t1 then
      (exMap cleanDateCell (getCol "基本发布时间" t1)).map
        (fun cs => ((setCol "发布时间" cs t1, dtFlag cs), []))
    else
      match (colNames t1).filter dateColMatch with
      | dc :: _ =>
        (exMap cleanDateCell (getCol dc t1)).map
          (fun cs => ((setCol "发布时间" cs t1, dtFlag cs), []))
      | [] => .ok ((setCol "发布时间" (List.replicate (nRows t1) .null) t1, false), [warnDate])

/-- `.dt.year` of one cell of a datetime column (`NaT` gives `NaN`). -/
def yearCell : Cell → Cell
  | .date dt => .num (mkRat dt.y 1)
  | _ => .null

/-- Exception text of `.dt` on a non-datetime column. -/
def dtErrMsg : String := "AttributeError: Can only use .dt accessor with datetimelike values"

/-- The year step `df['发布年份'] = df['发布时间'].dt.year`, which raises
whenever the release-date column is not datetime-typed. -/
def yearBlock (t : Table) (flag : Bool) : Except String Table :=
  if hasCol "发布时间" t then
    if flag then .ok (setCol "发布年份" ((getCol "发布时间" t).map yearCell) t)
    else .error dtErrMsg
  else .ok t

/-- `clean_data`: the four field blocks in source order followed by the
year derivation, with the emitted warnings collected in order; a raised
exception aborts the remaining blocks but the warnings already shown
stay visible. -/
def cleanData (t : Table) : List String × Except String Table :=
  match priceBlock t with
  | .error e => ([], .error e)
  | .ok (t1, w1) =>
    match ratingBlock t1 with
    | .error e => (w1, .error e)
    | .ok (t2, w2) =>
      match tagsBlock t2 with
      | .error e => (w1 ++ w2, .error e)
      | .ok (t3, w3) =>
        match dateBlock t3 with
        | .error e => (w1 ++ w2 ++ w3, .error e)
        | .ok ((t4, flag), w4) =>
          match yearBlock t4 flag with
          | .error e => (w1 ++ w2 ++ w3 ++ w4, .error e)
          | .ok t5 => (w1 ++ w2 ++ w3 ++ w4, .ok t5)

/-! ## The caller-visible store (aliasing model for the copy step)

`clean_data` receives a reference to the caller frame and immediately
rebinds `df = df.copy()`; every subsequent `df[...] = ...` statement
writes to the copy, so the net effect on the table store is one appended
table holding the final state of the copy.  `df.copy()` is a deep copy
of the frame; the object cells (tag lists) are shared, but no parser
mutates a cell object in place. -/

abbrev Store := List Table

/-- Dereference a table in the store. -/
def storeGet (h : Store) (r : Nat) : Table := h.getD r []

/-- Calling `clean_data` on the table at `r`: the copy is allocated, all
writes land in it, and the cleaned frame (or the partially cleaned copy,
when an exception aborted the call) is the newly allocated table. -/
def cleanDataCall (h : Store) (r : Nat) : Store × (List String × Except String Table) :=
  let work := storeGet h r
  let res := cleanData work
  (h ++ [match res.2 with | .ok t => t | .error _ => work], res)

/-! ## Exact rational arithmetic helpers

Core `Rat.add`/`Rat.mul`/`Rat.div` are irreducible for the kernel, so the
analytics are written with `mkRat` forms that evaluate; each is proved
equal to the field operation below. -/

/-- Rational addition through `mkRat`. -/
def qAdd (a b : Rat) : Rat := mkRat (a.num * b.den + b.num * a.den) (a.den * b.den)

/-- Rational subtraction through `mkRat`. -/
def qSub (a b : Rat) : Rat := mkRat (a.num * b.den - b.num * a.den) (a.den * b.den)

/-- Rational multiplication through `mkRat`. -/
def qMul (a b : Rat) : Rat := mkRat (a.num * b.num) (a.den * b.den)

/-- Division of a rational by a natural number through `mkRat`. -/
def qDivNat (a : Rat) (n : Nat) : Rat := mkRat a.num (a.den * n)

/-- Sum of a list of rationals. -/
def qSum (l : List Rat) : Rat := l.foldr qAdd (mkRat 0 1)

/-! ## Analytics

The analytics functions read the cleaned frame; after `clean_data` the
price column holds numbers (never missing) and the rating column holds
numbers or missing values, so their inputs are modelled at that type. -/

/-- One cleaned record as the analytics see it: an identifying name, the
cleaned price and the cleaned (possibly unknown) rating. -/
structure Game where
  name : String
  price : Rat
  rating : Option Rat
deriving DecidableEq

/-- The rating of a record known to have one. -/
def ratingVal (g : Game) : Rat := g.rating.getD (mkRat 0 1)

/-- The restriction shared by `plot_rating_price_correlation` and
`find_high_value_games`: `dropna` on price and rating, then
`价格 > 0`. -/
def hvValid (l : List Game) : List Game :=
  l.filter (fun g => g.rating.isSome && decide (mkRat 0 1 < g.price))

/-- `Series.mean()` of the prices. -/
def meanPrice (l : List Game) : Rat := qDivNat (qSum (l.map (·.price))) l.length

/-- Ascending comparison on ratings, the key of `sort_values`. -/
def ratingLE (a b : Game) : Prop := ratingVal a ≤ ratingVal b

instance : DecidableRel ratingLE :=
  fun a b => inferInstanceAs (Decidable (ratingVal a ≤ ratingVal b))

instance : IsTotal Game ratingLE := ⟨fun _ _ => le_total _ _⟩

instance : IsTrans Game ratingLE := ⟨fun _ _ _ => le_trans⟩

/-- `sort_values(by='好评率', ascending=False)`: pandas computes a stable
ascending argsort of the key and reverses the whole indexer, so equal
keys come out in reverse row order.  (numpy argsort with the default
quicksort kind is an introsort whose small-array path is a stable
insertion sort; the model uses a stable ascending sort, exact for small
frames, followed by the pandas reversal.) -/
def sortDescRating (l : List Game) : List Game := (List.insertionSort ratingLE l).reverse

/-- `find_high_value_games`: restrict, return the no-data sentinel on an
empty restriction, default the mean price over the restriction when the
caller supplies none, filter by `好评率 >= 85` and `价格 <= mean`, and
sort by descending rating. -/
def findHighValueGames (l : List Game) (mp : Option Rat) : Option (List Game) :=
  let v := hvValid l
  if v.isEmpty then none
  else
    let m := mp.getD (meanPrice v)
    some (sortDescRating
      (v.filter (fun g => decide (mkRat 85 1 ≤ ratingVal g) && decide (g.price ≤ m))))

/-- The (price, rating) pairs `plot_rating_price_correlation` restricts
to: rows with a known rating and positive price. -/
def corrValid (rows : List (Rat × Option Rat)) : List (Rat × Rat) :=
  rows.filterMap (fun pr =>
    match pr.2 with
    | some r => if mkRat 0 1 < pr.1 then some (pr.1, r) else none
    | none => none)

/-- `plot_rating_price_correlation`: the no-data sentinel on an empty
restriction, otherwise the pair list over which pandas computes the
Pearson coefficient.  The coefficient itself is a real number (it
involves a square root); its definedness and its band classification
are modelled by the rational predicates below. -/
def plotRatingPriceCorrelation (rows : List (Rat × Option Rat)) : Option (List (Rat × Rat)) :=
  let v := corrValid rows
  if v.isEmpty then none else some v

/-- Squaring through `mkRat`. -/
def sq (a : Rat) : Rat := qMul a a

/-- `n·Σx² − (Σx)²`, proportional to the x-variance of the pairs. -/
def corrDenomX (ps : List (Rat × Rat)) : Rat :=
  qSub (qMul (mkRat ps.length 1) (qSum (ps.map (fun p => sq p.1)))) (sq (qSum (ps.map (·.1))))

/-- `n·Σy² − (Σy)²`, proportional to the y-variance of the pairs. -/
def corrDenomY (ps : List (Rat × Rat)) : Rat :=
  qSub (qMul (mkRat ps.length 1) (qSum (ps.map (fun p => sq p.2)))) (sq (qSum (ps.map (·.2))))

/-- `Series.corr` returns `NaN` exactly when fewer than two pairs remain
or either variance vanishes. -/
def corrIsNaN (ps : List (Rat × Rat)) : Bool :=
  ps.length < 2 || decide (corrDenomX ps = mkRat 0 1) || decide (corrDenomY ps = mkRat 0 1)

/-- The six correlation bands reported by `main`. -/
inductive Band where
  | strongPos
  | moderatePos
  | weakPos
  | weakNeg
  | moderateNeg
  | strongNeg
deriving DecidableEq

/-- The classification chain of `main`: strict comparisons against
`0.5, 0.3, 0, -0.3, -0.5` in order, with a final else branch. -/
def classifyCorr (c : Rat) : Band :=
  if mkRat 1 2 < c then .strongPos
  else if mkRat 3 10 < c then .moderatePos
  else if mkRat 0 1 < c then .weakPos
  else if mkRat (-3) 10 < c then .weakNeg
  else if mkRat (-1) 2 < c then .moderateNeg
  else .strongNeg

/-- The classification as `main` runs it on the float coefficient: every
comparison against `NaN` is false, so an undefined coefficient falls
through every branch to strong-negative. -/
def classifyCorrPy : Option Rat → Band
  | some c => classifyCorr c
  | none => .strongNeg

/-- Flattening of the tag column in `plot_tags_bar`:
`[tag for tags in df['标签列表'] for tag in tags if tag]` — note the
truthiness test drops empty strings. -/
def flattenTags (tls : List (List String)) : List String :=
  tls.flatten.filter (fun tg => tg ≠ "")

/-- Keys of `collections.Counter` in first-seen order (dict insertion
order). -/
def firstSeen (ts : List String) : List String :=
  ts.foldl (fun acc tg => if tg ∈ acc then acc else acc ++ [tg]) []

/-- `Counter(ts)` as an ordered association list: first-seen key order
with occurrence counts. -/
def tagCounter (ts : List String) : List (String × Nat) :=
  (firstSeen ts).map (fun tg => (tg, ts.count tg))

/-- Descending-count comparison, the key of `Counter.most_common`. -/
def countGE (a b : String × Nat) : Prop := b.2 ≤ a.2

instance : DecidableRel countGE := fun a b => inferInstanceAs (Decidable (b.2 ≤ a.2))

instance : IsTotal (String × Nat) countGE := ⟨fun a b => le_total b.2 a.2⟩

instance : IsTrans (String × Nat) countGE := ⟨fun _ _ _ h1 h2 => le_trans h2 h1⟩

/-- `Counter.most_common(n)`: the first `n` entries by descending count;
`heapq.nlargest` tags every item with its position, so equal counts keep
their first-seen order (a stable descending sort). -/
def mostCommon (n : Nat) (l : List (String × Nat)) : List (String × Nat) :=
  (List.insertionSort countGE l).take n

/-- `plot_tags_bar`: flatten the tag column (dropping empty tags), return
the no-data sentinel when nothing remains, otherwise the top 20
(tag, count) pairs. -/
def plotTagsBar (tls : List (List String)) : Option (List (String × Nat)) :=
  let all := flattenTags tls
  if all.isEmpty then none else some (mostCommon 20 (tagCounter all))

/-! ## Named-column record-set shapes

`mk8` is a record set carrying exactly the eight named detailed/basic
source columns; `mk13` is its shape after one normalization pass, with
the five canonical columns appended in creation order. -/

/-- A record set with the eight named source columns. -/
def mk8 (a b c d e f g h : List Cell) : Table :=
  [("原价", a), ("折扣价", b), ("详细好评率", c), ("基本好评率", d),
   ("详细标签", e), ("基本标签", f), ("详细发布日期", g), ("基本发布时间", h)]

/-- The shape of a normalized `mk8` record set: the source columns
followed by the five canonical columns. -/
def mk13 (a b c d e f g h p r tg dt yr : List Cell) : Table :=
  mk8 a b c d e f g h
    ++ [("价格", p), ("好评率", r), ("标签列表", tg), ("发布时间", dt), ("发布年份", yr)]

/-- Intermediate shape after the price block. -/
def mk9 (a b c d e f g h p : List Cell) : Table :=
  mk8 a b c d e f g h ++ [("价格", p)]

/-- Intermediate shape after the rating block. -/
def mk10 (a b c d e f g h p r : List Cell) : Table :=
  mk8 a b c d e f g h ++ [("价格", p), ("好评率", r)]

/-- Intermediate shape after the tag block. -/
def mk11 (a b c d e f g h p r tg : List Cell) : Table :=
  mk8 a b c d e f g h ++ [("价格", p), ("好评率", r), ("标签列表", tg)]

/-- Intermediate shape after the date block. -/
def mk12 (a b c d e f g h p r tg dt : List Cell) : Table :=
  mk8 a b c d e f g h ++ [("价格", p), ("好评率", r), ("标签列表", tg), ("发布时间", dt)]

/-- The per-row choice a row-wise fallback performs: keep the
detailed-derived value unless the mask marks it unknown/empty, in which
case take the basic-derived value. -/
def rowChoice (mb : Cell → Bool) (dv bv : Cell) : Cell := if mb dv then bv else dv

/-- The unknown/empty test for parsed tag cells (an empty list). -/
def lenZeroTag : Cell → Bool
  | .tags xs => xs.isEmpty
  | _ => false

/-- A fallible computation that returned a value. -/
def exOk {α : Type} (e : Except String α) : Prop := ∃ v, e = .ok v

/-! ## Spec-modelled reference definition for the amended tag contract -/

/-- The tag-parser contract of the specification, amended in the single
point the source forces: pieces are stripped of whitespace but empty
pieces are kept (and a cleaned string that is empty gives the empty
sequence).  Bracket and quote characters are removed as one
character-set filter, the way the spec words it. -/
def parseTagsSpecAmended : Cell → List String
  | .null => []
  | .str s =>
    if s = "未知" ∨ s = "[]" then []
    else
      let cleaned := s.toList.filter (fun c => !(['[', ']', quoteCh, '"'].contains c))
      if cleaned.isEmpty then []
      else (splitOn ',' cleaned).map (fun p => String.mk (pyStrip p))
  | _ => []

/-! ## Concrete record sets used by the claims -/

/-- A record set on which all four field parsers succeed row-wise (the
date parser maps `n/a` to unknown) but normalization still raises: the
all-unknown release-date column is not datetime-typed. -/
def c1Tbl : Table :=
  [("原价", [.str "49.99"]), ("详细好评率", [.str "92%"]),
   ("详细标签", [.str "['Action']"]), ("详细发布日期", [.str "n/a"])]

/-- A record set whose discount column parses to the price default `0.0`
in its only row while the original-price column holds `50`: the claimed
row-wise price fallback would give `50`. -/
def c2Tbl : Table :=
  [("折扣价", [.str "未知"]), ("原价", [.str "50"]), ("详细发布日期", [.str "2021-03-15"])]

/-- A record set in which no column matches any field by any resolution
rule. -/
def c3Tbl : Table := [("游戏名称", [.str "A"])]

/-- A record set whose tag column is resolved by the synonym scan (its
name is literally the canonical one), making the second normalization
pass feed list values to the tag parser. -/
def c6Tbl : Table :=
  [("原价", [.str "49"]), ("详细好评率", [.str "92%"]),
   ("标签列表", [.str "['Action', 'Indie']"]), ("详细发布日期", [.str "2021-03-15"])]

/-- The normalized form of `c6Tbl` after one pass. -/
def c6Out : Table :=
  [("原价", [.num (mkRat 49 1)]), ("详细好评率", [.str "92%"]),
   ("标签列表", [.tags ["Action", "Indie"]]), ("详细发布日期", [.str "2021-03-15"]),
   ("价格", [.num (mkRat 49 1)]), ("好评率", [.num (mkRat 92 1)]),
   ("发布时间", [.date ⟨2021, 3, 15⟩]), ("发布年份", [.num (mkRat 2021 1)])]

/-- Two equally rated, equally priced records used to exhibit the tie
order of the high-value ranking. -/
def gameA : Game := ⟨"A", mkRat 10 1, some (mkRat 90 1)⟩

/-- Second of the two tied records. -/
def gameB : Game := ⟨"B", mkRat 10 1, some (mkRat 90 1)⟩

/-! # Lemmas

## Digit strings and the decimal round trip -/

theorem digitsAuxLE_lt10 : ∀ {fuel n : Nat}, ∀ d ∈ digitsAuxLE fuel n, d < 10 := by
  intro fuel
  induction fuel with
  | zero => intro n d hd; simp [digitsAuxLE] at hd
  | succ fuel ih =>
    intro n d hd
    by_cases hn : n = 0
    · simp [digitsAuxLE, hn] at hd
    · simp only [digitsAuxLE, if_neg hn, List.mem_cons] at hd
      rcases hd with h | h
      · omega
      · exact ih _ h

theorem ofDigLE_digitsAuxLE : ∀ {fuel n : Nat}, n ≤ fuel → ofDigLE (digitsAuxLE fuel n) = n := by
  intro fuel
  induction fuel with
  | zero => intro n hn; interval_cases n; rfl
  | succ fuel ih =>
    intro n hn
    by_cases h0 : n = 0
    · simp [digitsAuxLE, h0, ofDigLE]
    · have hrec : n / 10 ≤ fuel := by omega
      simp only [digitsAuxLE, if_neg h0, ofDigLE, List.foldr_cons]
      have := ih hrec
      simp only [ofDigLE] at this
      rw [this]
      omega

theorem digitsAuxLE_len_le :
    ∀ {fuel n L : Nat}, n ≤ fuel → n < 10 ^ L → (digitsAuxLE fuel n).length ≤ L := by
  intro fuel
  induction fuel with
  | zero => intro n L hn _; interval_cases n; simp [digitsAuxLE]
  | succ fuel ih =>
    intro n L hn hL
    by_cases h0 : n = 0
    · simp [digitsAuxLE, h0]
    · match L with
      | 0 => simp at hL; omega
      | L + 1 =>
        simp only [digitsAuxLE, if_neg h0, List.length_cons]
        have h1 : n / 10 < 10 ^ L := by
          apply Nat.div_lt_of_lt_mul
          calc n < 10 ^ (L + 1) := hL
            _ = 10 * 10 ^ L := by ring
        have h2 := ih (n := n / 10) (L := L) (by omega) h1
        omega

theorem digitsAuxLE_ne_nil {fuel n : Nat} (h0 : n ≠ 0) (hn : n ≤ fuel) :
    digitsAuxLE fuel n ≠ [] := by
  match fuel with
  | 0 => omega
  | fuel + 1 => simp [digitsAuxLE, if_neg h0]

theorem chVal_digitChar {d : Nat} (hd : d < 10) : chVal (Nat.digitChar d) = d := by
  interval_cases d <;> rfl

theorem isDigit_digitChar {d : Nat} (hd : d < 10) : (Nat.digitChar d).isDigit = true := by
  interval_cases d <;> rfl

theorem digitChar_ne_dot {d : Nat} (hd : d < 10) : Nat.digitChar d ≠ '.' := by
  interval_cases d <;> decide

theorem foldl_digitChars (l : List Nat) (hl : ∀ d ∈ l, d < 10) (a : Nat) :
    ((l.map Nat.digitChar).reverse).foldl (fun acc c => 10 * acc + chVal c) a
      = a * 10 ^ l.length + ofDigLE l := by
  induction l generalizing a with
  | nil => simp [ofDigLE]
  | cons d t ih =>
    have hd : d < 10 := hl d (List.mem_cons_self d t)
    simp only [List.map_cons, List.reverse_cons, List.foldl_append, List.foldl_cons,
      List.foldl_nil]
    rw [ih (fun x hx => hl x (List.mem_cons_of_mem _ hx))]
    rw [chVal_digitChar hd]
    simp only [ofDigLE, List.foldr_cons, List.length_cons]
    have : (10 : Nat) ^ (t.length + 1) = 10 ^ t.length * 10 := by ring
    rw [this]
    set S := t.foldr (fun d a => 10 * a + d) 0
    ring

theorem ofDigLE_digitsLE (n : Nat) : ofDigLE (digitsLE n) = n := by
  simpa [digitsLE] using ofDigLE_digitsAuxLE (Nat.le_refl n)

theorem readNat_natCharsBE (n : Nat) : readNat (natCharsBE n) = n := by
  have h := foldl_digitChars (digitsLE n) (fun d hd => digitsAuxLE_lt10 d hd) 0
  simp only [readNat, natCharsBE]
  rw [h, ofDigLE_digitsLE]
  simp

theorem readNat_natStr (n : Nat) : readNat (natStr n) = n := by
  by_cases h0 : n = 0
  · simp [natStr, h0, readNat, chVal]
  · simp only [natStr, if_neg h0]
    exact readNat_natCharsBE n

theorem foldl_zero_replicate (k : Nat) :
    (List.replicate k '0').foldl (fun acc c => 10 * acc + chVal c) 0 = 0 := by
  induction k with
  | zero => rfl
  | succ k ih => simpa [List.replicate_succ, chVal] using ih

theorem readNat_fracPad (L f : Nat) : readNat (fracPad L f) = f := by
  simp only [readNat, fracPad, List.foldl_append]
  rw [foldl_zero_replicate]
  have h := foldl_digitChars (digitsLE f) (fun d hd => digitsAuxLE_lt10 d hd) 0
  simp only [natCharsBE]
  rw [h, ofDigLE_digitsLE]
  simp

theorem length_fracPad (L f : Nat) (h : f < 10 ^ L) : (fracPad L f).length = L := by
  have hlen : (digitsLE f).length ≤ L := digitsAuxLE_len_le (Nat.le_refl f) h
  simp only [fracPad, List.length_append, List.length_replicate, List.length_reverse,
    List.length_map, natCharsBE]
  simp only [digitsLE] at hlen ⊢
  omega

theorem natCharsBE_digits (n : Nat) : ∀ c ∈ natCharsBE n, c.isDigit = true := by
  intro c hc
  simp only [natCharsBE, List.mem_reverse, List.mem_map] at hc
  obtain ⟨d, hd, rfl⟩ := hc
  exact isDigit_digitChar (digitsAuxLE_lt10 d hd)

theorem natStr_digits (n : Nat) : ∀ c ∈ natStr n, c.isDigit = true := by
  intro c hc
  by_cases h0 : n = 0
  · simp [natStr, h0] at hc; simp [hc]
  · simp only [natStr, if_neg h0] at hc
    exact natCharsBE_digits n c hc

theorem fracPad_digits (L f : Nat) : ∀ c ∈ fracPad L f, c.isDigit = true := by
  intro c hc
  simp only [fracPad, List.mem_append, List.mem_replicate] at hc
  rcases hc with h | h
  · simp [h.2]
  · exact natCharsBE_digits f c h

theorem natStr_head (n : Nat) : ∃ c cs, natStr n = c :: cs ∧ c.isDigit = true := by
  cases hval : natStr n with
  | nil =>
    exfalso
    by_cases h0 : n = 0
    · simp [natStr, h0] at hval
    · have hne := digitsAuxLE_ne_nil h0 (Nat.le_refl n)
      simp only [natStr, if_neg h0, natCharsBE, digitsLE,
        List.reverse_eq_nil_iff, List.map_eq_nil_iff] at hval
      exact hne hval
  | cons c cs =>
    refine ⟨c, cs, rfl, natStr_digits n c ?_⟩
    rw [hval]
    exact List.mem_cons_self c cs

theorem matchNum_decimal (I F : List Char) (hI : ∀ c ∈ I, c.isDigit = true)
    (hF : ∀ c ∈ F, c.isDigit = true) :
    matchNum (I ++ '.' :: F) = I ++ '.' :: F := by
  have hdot : ('.' : Char).isDigit = false := by decide
  unfold matchNum
  rw [List.takeWhile_append_of_pos hI]
  simp only [List.takeWhile_cons, hdot]
  simp only [List.append_nil, Bool.false_eq_true, if_false]
  rw [List.drop_left]
  simp only [if_pos rfl]
  rw [List.takeWhile_eq_self_iff.mpr hF]
  simp

theorem searchNum_head (c : Char) (cs : List Char) (h : c.isDigit = true) :
    searchNum (c :: cs) = some (matchNum (c :: cs)) := by
  simp [searchNum, h]

theorem splitAtDot_append (I F : List Char) (hI : ∀ c ∈ I, c ≠ '.') :
    splitAtDot (I ++ '.' :: F) = (I, F) := by
  induction I with
  | nil => simp [splitAtDot]
  | cons c t ih =>
    have hc : c ≠ '.' := hI c (List.mem_cons_self c t)
    simp only [List.cons_append, splitAtDot, if_neg hc, List.append_eq]
    rw [ih (fun x hx => hI x (List.mem_cons_of_mem _ hx))]

theorem digit_ne_dot {c : Char} (h : c.isDigit = true) : c ≠ '.' := by
  intro he
  rw [he] at h
  simp [Char.isDigit] at h

/-! ## `mkRat` facts and the smooth-denominator lemma -/

theorem mkRat_nat_nonneg (m n : Nat) : 0 ≤ mkRat (m : Int) n := by
  rw [Rat.mkRat_eq_divInt, Rat.divInt_eq_div]
  positivity

theorem mkRat_den_dvd (m : Int) (n : Nat) : (mkRat m n).den ∣ n := by
  rw [Rat.mkRat_eq_divInt]
  have h := Rat.den_dvd m (n : Int)
  exact_mod_cast h

/-- A divisor of a power of ten divides the power of ten with its own
exponent. -/
theorem dvd_ten_pow_self {d k : Nat} (h : d ∣ 10 ^ k) : d ∣ 10 ^ d := by
  induction d using Nat.strong_induction_on generalizing k with
  | _ d ih =>
    match d with
    | 0 =>
      exfalso
      have h0 := Nat.eq_zero_of_zero_dvd h
      have hpos : 0 < 10 ^ k := Nat.pos_pow_of_pos k (by norm_num)
      omega
    | 1 => exact one_dvd _
    | (d + 2) =>
      by_cases h2 : 2 ∣ d + 2
      · obtain ⟨d', hd'⟩ := h2
        have hd'pos : 1 ≤ d' := by omega
        have hdvd' : d' ∣ 10 ^ k := dvd_trans ⟨2, by omega⟩ h
        have ih' : d' ∣ 10 ^ d' := ih d' (by omega) hdvd'
        calc d + 2 = 2 * d' := hd'
          _ ∣ 2 * 10 ^ d' := mul_dvd_mul_left 2 ih'
          _ ∣ 10 * 10 ^ d' := mul_dvd_mul_right (by norm_num) _
          _ = 10 ^ (d' + 1) := by ring
          _ ∣ 10 ^ (d + 2) := pow_dvd_pow 10 (by omega)
      · by_cases h5 : 5 ∣ d + 2
        · obtain ⟨d', hd'⟩ := h5
          have hd'pos : 1 ≤ d' := by omega
          have hdvd' : d' ∣ 10 ^ k := dvd_trans ⟨5, by omega⟩ h
          have ih' : d' ∣ 10 ^ d' := ih d' (by omega) hdvd'
          calc d + 2 = 5 * d' := hd'
            _ ∣ 5 * 10 ^ d' := mul_dvd_mul_left 5 ih'
            _ ∣ 10 * 10 ^ d' := mul_dvd_mul_right (by norm_num) _
            _ = 10 ^ (d' + 1) := by ring
            _ ∣ 10 ^ (d + 2) := pow_dvd_pow 10 (by omega)
        · exfalso
          have hc2 : Nat.Coprime 2 (d + 2) :=
            (Nat.Prime.coprime_iff_not_dvd Nat.prime_two).mpr h2
          have hc5 : Nat.Coprime 5 (d + 2) :=
            (Nat.Prime.coprime_iff_not_dvd (by norm_num)).mpr h5
          have hc10 : Nat.Coprime (d + 2) 10 := by
            have : Nat.Coprime 10 (d + 2) := by
              have : (10 : Nat) = 2 * 5 := by norm_num
              rw [this]
              exact Nat.Coprime.mul hc2 hc5
            exact this.symm
          have hc10k : Nat.Coprime (d + 2) (10 ^ k) := hc10.pow_right k
          have h1 : d + 2 = 1 := Nat.Coprime.eq_one_of_dvd hc10k h
          omega

/-! ## The price round trip: re-parsing a printed parsed price -/

theorem extractPrice_decimal (I F : List Char) (hne : I ≠ [])
    (hI : ∀ c ∈ I, c.isDigit = true) (hF : ∀ c ∈ F, c.isDigit = true) :
    extractPrice (I ++ '.' :: F)
      = mkRat ((readNat I * 10 ^ F.length + readNat F : Nat) : Int) (10 ^ F.length) := by
  match I, hne with
  | c :: t, _ =>
    have hc : c.isDigit = true := hI c (List.mem_cons_self c t)
    have hsearch : searchNum ((c :: t) ++ '.' :: F) = some (matchNum ((c :: t) ++ '.' :: F)) := by
      rw [List.cons_append]
      exact searchNum_head c _ hc
    have hstep : extractPrice ((c :: t) ++ '.' :: F) = parseDec (matchNum ((c :: t) ++ '.' :: F)) := by
      unfold extractPrice
      rw [hsearch]
    rw [hstep, matchNum_decimal _ _ hI hF]
    unfold parseDec
    rw [splitAtDot_append _ _ (fun x hx => digit_ne_dot (hI x hx))]

theorem extractPrice_pyFloat {q : Rat} (h0 : 0 ≤ q) (hd : q.den ∣ 10 ^ q.den)
    (hs : pySci q = false) :
    extractPrice (pyFloatChars q) = q := by
  have hpow : (0 : Nat) < 10 ^ q.den := Nat.pos_pow_of_pos _ (by norm_num)
  set L := q.den with hLdef
  set m := q.num.natAbs * 10 ^ L / q.den with hmdef
  have hmod : m % 10 ^ L < 10 ^ L := Nat.mod_lt _ hpow
  have hplain : pyFloatChars q = plainFloatChars q := by
    unfold pyFloatChars
    rw [hs]
    rfl
  have hshape : pyFloatChars q = natStr (m / 10 ^ L) ++ '.' :: fracPad L (m % 10 ^ L) := by
    rw [hplain]
    rfl
  obtain ⟨c0, cs0, hcons, _⟩ := natStr_head (m / 10 ^ L)
  rw [hshape, extractPrice_decimal _ _ (by rw [hcons]; simp)
      (natStr_digits _) (fracPad_digits _ _)]
  rw [readNat_natStr, readNat_fracPad, length_fracPad _ _ hmod,
    show m / 10 ^ L * 10 ^ L + m % 10 ^ L = m from Nat.div_add_mod' m (10 ^ L)]
  -- it remains to see that `mkRat m (10 ^ L) = q`
  have hmden : q.den ∣ q.num.natAbs * 10 ^ L := Dvd.dvd.mul_left hd _
  have hmmul : m * q.den = q.num.natAbs * 10 ^ L := Nat.div_mul_cancel hmden
  have hnum0 : 0 ≤ q.num := Rat.num_nonneg.mpr h0
  have habs : (q.num.natAbs : Int) = q.num := Int.natAbs_of_nonneg hnum0
  have hden0 : (q.den : ℚ) ≠ 0 := Nat.cast_ne_zero.mpr q.den_nz
  have hpow0 : ((10 : ℚ)) ^ L ≠ 0 := by positivity
  rw [Rat.mkRat_eq_divInt, Rat.divInt_eq_div]
  push_cast
  rw [div_eq_iff hpow0]
  have hq : (q.num : ℚ) = q * (q.den : ℚ) := by
    have h := Rat.num_div_den q
    rw [div_eq_iff hden0] at h
    exact h
  have key : (m : ℚ) * (q.den : ℚ) = (q.num : ℚ) * (10 : ℚ) ^ L := by
    have hcast := congrArg (fun n : Nat => (n : ℚ)) hmmul
    push_cast at hcast
    rw [hcast]
    have habsq : ((q.num.natAbs : ℚ)) = ((q.num : ℚ)) := by
      rw [Int.cast_natAbs]
      exact_mod_cast abs_of_nonneg hnum0
    rw [habsq]
  apply mul_right_cancel₀ hden0
  rw [key, hq]
  ring

theorem parseDec_shape (l : List Char) :
    0 ≤ parseDec l ∧ (parseDec l).den ∣ 10 ^ (parseDec l).den := by
  unfold parseDec
  exact ⟨mkRat_nat_nonneg _ _, dvd_ten_pow_self (mkRat_den_dvd _ _)⟩

/-- The value `clean_price` stores is a nonnegative rational whose
denominator divides a power of ten. -/
theorem extractPrice_shape (cs : List Char) :
    0 ≤ extractPrice cs ∧ (extractPrice cs).den ∣ 10 ^ (extractPrice cs).den := by
  have h : extractPrice cs
      = (match searchNum cs with
         | some l => parseDec l
         | none => mkRat 0 1) := rfl
  cases hs : searchNum cs with
  | none =>
    simp only [h, hs]
    exact ⟨by decide, by decide⟩
  | some l =>
    simp only [h, hs]
    exact parseDec_shape l

theorem cleanPrice_roundtrip {q : Rat} (h0 : 0 ≤ q) (hd : q.den ∣ 10 ^ q.den)
    (hs : pySci q = false) :
    cleanPrice (.num q) = .ok q := by
  show Except.ok (extractPrice (pyFloatChars q)) = .ok q
  rw [extractPrice_pyFloat h0 hd hs]

/-! ## Parser totality and value shapes on raw cells -/

theorem cleanPrice_raw_shape (x : Cell) (hx : rawCell x = true) :
    ∃ q, cleanPrice x = .ok q ∧ 0 ≤ q ∧ q.den ∣ 10 ^ q.den := by
  match x, hx with
  | .null, _ => exact ⟨mkRat 0 1, rfl, by decide, by decide⟩
  | .str s, _ =>
    by_cases h : s = "未知" ∨ s = "免费"
    · exact ⟨mkRat 0 1, by simp [cleanPrice, if_pos h], by decide, by decide⟩
    · exact ⟨extractPrice s.toList, by simp [cleanPrice, if_neg h],
        (extractPrice_shape s.toList).1, (extractPrice_shape s.toList).2⟩
  | .num q0, _ =>
    exact ⟨extractPrice (pyFloatChars q0), rfl,
      (extractPrice_shape _).1, (extractPrice_shape _).2⟩

theorem cleanPriceCell_raw_shape (x : Cell) (hx : rawCell x = true) :
    ∃ q, cleanPriceCell x = .ok (.num q) ∧ 0 ≤ q ∧ q.den ∣ 10 ^ q.den := by
  obtain ⟨q, hq, h0, hd⟩ := cleanPrice_raw_shape x hx
  refine ⟨q, ?_, h0, hd⟩
  simp only [cleanPriceCell, hq]
  rfl

theorem cleanPriceCell_roundtrip {q : Rat} (h0 : 0 ≤ q) (hd : q.den ∣ 10 ^ q.den)
    (hs : pySci q = false) :
    cleanPriceCell (.num q) = .ok (.num q) := by
  simp only [cleanPriceCell, cleanPrice_roundtrip h0 hd hs]
  rfl

theorem cleanRatingCell_raw (x : Cell) (hx : rawCell x = true) :
    ∃ v, cleanRatingCell x = .ok v := by
  match x, hx with
  | .null, _ => exact ⟨_, rfl⟩
  | .str s, _ => exact ⟨_, rfl⟩
  | .num q, _ => exact ⟨_, rfl⟩

theorem cleanTagsCell_raw_shape (x : Cell) (hx : rawCell x = true) :
    ∃ xs, cleanTagsCell x = .ok (.tags xs) := by
  match x, hx with
  | .null, _ => exact ⟨_, rfl⟩
  | .str s, _ => exact ⟨_, rfl⟩
  | .num q, _ => exact ⟨_, rfl⟩

theorem cleanDateCell_raw (x : Cell) (hx : rawCell x = true) :
    ∃ v, cleanDateCell x = .ok v := by
  match x, hx with
  | .null, _ => exact ⟨_, rfl⟩
  | .str s, _ => exact ⟨_, rfl⟩
  | .num q, _ => exact ⟨_, rfl⟩

/-! ## Column-level lemmas -/

theorem exMap_ok_length {f : Cell → Except String Cell} :
    ∀ {l vs : List Cell}, exMap f l = .ok vs → vs.length = l.length := by
  intro l
  induction l with
  | nil =>
    intro vs h
    simp only [exMap] at h
    injection h with h
    simp [← h]
  | cons c cs ih =>
    intro vs h
    simp only [exMap] at h
    cases hf : f c with
    | error e => rw [hf] at h; exact absurd h (by simp)
    | ok v =>
      rw [hf] at h
      cases hrec : exMap f cs with
      | error e => rw [hrec] at h; exact absurd h (by simp)
      | ok ws =>
        rw [hrec] at h
        cases h
        simp [ih hrec]

theorem exMap_total {f : Cell → Except String Cell} :
    ∀ {l : List Cell}, (∀ x ∈ l, ∃ v, f x = .ok v) → ∃ vs, exMap f l = .ok vs := by
  intro l
  induction l with
  | nil => intro _; exact ⟨[], rfl⟩
  | cons c cs ih =>
    intro h
    obtain ⟨v, hv⟩ := h c (List.mem_cons_self c cs)
    obtain ⟨vs, hvs⟩ := ih (fun x hx => h x (List.mem_cons_of_mem _ hx))
    exact ⟨v :: vs, by simp [exMap, hv, hvs]⟩

theorem exMap_ok_forall {f : Cell → Except String Cell} (P : Cell → Prop)
    (hf : ∀ x v, f x = .ok v → P v) :
    ∀ {l vs : List Cell}, exMap f l = .ok vs → ∀ y ∈ vs, P y := by
  intro l
  induction l with
  | nil =>
    intro vs h y hy
    simp only [exMap] at h
    injection h with h
    rw [← h] at hy
    simp at hy
  | cons c cs ih =>
    intro vs h y hy
    simp only [exMap] at h
    cases hfc : f c with
    | error e => rw [hfc] at h; exact absurd h (by simp)
    | ok v =>
      rw [hfc] at h
      cases hrec : exMap f cs with
      | error e => rw [hrec] at h; exact absurd h (by simp)
      | ok ws =>
        rw [hrec] at h
        cases h
        rcases List.mem_cons.mp hy with rfl | hmem
        · exact hf c y hfc
        · exact ih hrec y hmem

theorem exMap_pointwise_roundtrip {f : Cell → Except String Cell}
    (hf : ∀ y, (∃ x v, f x = .ok v ∧ y = v) → f y = .ok y) :
    ∀ {l vs : List Cell}, exMap f l = .ok vs → exMap f vs = .ok vs := by
  intro l
  induction l with
  | nil =>
    intro vs h
    simp only [exMap] at h
    injection h with h
    rw [← h]
    rfl
  | cons c cs ih =>
    intro vs h
    simp only [exMap] at h
    cases hfc : f c with
    | error e => rw [hfc] at h; exact absurd h (by simp)
    | ok v =>
      rw [hfc] at h
      cases hrec : exMap f cs with
      | error e => rw [hrec] at h; exact absurd h (by simp)
      | ok ws =>
        rw [hrec] at h
        cases h
        have h1 : f v = .ok v := hf v ⟨c, v, hfc, rfl⟩
        have h2 : exMap f ws = .ok ws := ih hrec
        simp [exMap, h1, h2]

/-- Re-cleaning an already cleaned price column returns it unchanged. -/
theorem exMap_price_roundtrip {l pl : List Cell}
    (hraw : ∀ x ∈ l, rawCell x = true)
    (hplain : ∀ x ∈ pl, plainNum x = true)
    (h : exMap cleanPriceCell l = .ok pl) :
    exMap cleanPriceCell pl = .ok pl := by
  -- every cleaned cell is a nonnegative decimal number, and such cells re-parse to themselves
  have hshape : ∀ y ∈ pl, ∃ q, y = .num q ∧ 0 ≤ q ∧ q.den ∣ 10 ^ q.den := by
    intro y hy
    clear hplain
    induction l generalizing pl with
    | nil =>
      simp only [exMap] at h
      injection h with h
      rw [← h] at hy
      simp at hy
    | cons c cs ih =>
      simp only [exMap] at h
      cases hfc : cleanPriceCell c with
      | error e => rw [hfc] at h; exact absurd h (by simp)
      | ok v =>
        rw [hfc] at h
        cases hrec : exMap cleanPriceCell cs with
        | error e => rw [hrec] at h; exact absurd h (by simp)
        | ok ws =>
          rw [hrec] at h
          cases h
          rcases List.mem_cons.mp hy with rfl | hmem
          · obtain ⟨q, hq, h0, hd⟩ := cleanPriceCell_raw_shape c
              (hraw c (List.mem_cons_self c cs))
            rw [hq] at hfc
            cases hfc
            exact ⟨q, rfl, h0, hd⟩
          · exact ih (fun x hx => hraw x (List.mem_cons_of_mem _ hx)) hrec hmem
  clear h hraw
  induction pl with
  | nil => rfl
  | cons y ys ih =>
    obtain ⟨q, rfl, h0, hd⟩ := hshape y (List.mem_cons_self y ys)
    have hs : pySci q = false := by
      have := hplain (.num q) (List.mem_cons_self _ ys)
      simpa [plainNum] using this
    have h1 : cleanPriceCell (.num q) = .ok (.num q) := cleanPriceCell_roundtrip h0 hd hs
    have h2 := ih (fun z hz => hplain z (List.mem_cons_of_mem _ hz))
      (fun z hz => hshape z (List.mem_cons_of_mem _ hz))
    simp [exMap, h1, h2]

/-! ## Row-wise fallback lemmas -/

theorem maskMap_pointwise {mask : Cell → Except String Bool} {mb : Cell → Bool} :
    ∀ {l : List Cell}, (∀ x ∈ l, mask x = .ok (mb x)) → maskMap mask l = .ok (l.map mb) := by
  intro l
  induction l with
  | nil => intro _; rfl
  | cons c cs ih =>
    intro h
    have hc := h c (List.mem_cons_self c cs)
    have hrec := ih (fun x hx => h x (List.mem_cons_of_mem _ hx))
    simp [maskMap, hc, hrec]

theorem fillRows_zipWith {f : Cell → Except String Cell} {mb : Cell → Bool} :
    ∀ {cur basic pbasic : List Cell},
      exMap f basic = .ok pbasic → cur.length = basic.length →
      fillRows f (cur.map mb) cur basic
        = .ok (List.zipWith (fun dv bv => if mb dv then bv else dv) cur pbasic) := by
  intro cur
  induction cur with
  | nil =>
    intro basic pbasic hp hl
    match basic, hl with
    | [], _ =>
      simp only [exMap] at hp
      injection hp with hp
      rw [← hp]
      rfl
  | cons x xs ih =>
    intro basic pbasic hp hl
    match basic, hl with
    | y :: ys, hl =>
      simp only [exMap] at hp
      cases hfy : f y with
      | error e => rw [hfy] at hp; exact absurd hp (by simp)
      | ok v =>
        rw [hfy] at hp
        cases hrec : exMap f ys with
        | error e => rw [hrec] at hp; exact absurd hp (by simp)
        | ok ws =>
          rw [hrec] at hp
          cases hp
          have h2 := ih hrec (by simpa using hl)
          by_cases hm : mb x
          · simp [fillRows, List.map_cons, hm, hfy, h2]
          · simp [fillRows, List.map_cons, hm, h2]

theorem rowFallback_eq_zipWith {mask : Cell → Except String Bool} {mb : Cell → Bool}
    {f : Cell → Except String Cell} {cur basic pbasic : List Cell}
    (hm : ∀ x ∈ cur, mask x = .ok (mb x))
    (hp : exMap f basic = .ok pbasic) (hl : cur.length = basic.length) :
    rowFallback mask f cur basic
      = .ok (List.zipWith (fun dv bv => if mb dv then bv else dv) cur pbasic) := by
  unfold rowFallback
  rw [maskMap_pointwise hm]
  exact fillRows_zipWith hp hl

/-- A parsed rating or date column admits the missing-value mask. -/
theorem isnaMask_pointwise (l : List Cell) : ∀ x ∈ l, isnaMask x = .ok (isNull x) :=
  fun _ _ => rfl

/-- A parsed tag column admits the emptiness mask. -/
theorem lenZeroMask_tags {l : List Cell} (h : ∀ x ∈ l, ∃ xs, x = .tags xs) :
    ∀ x ∈ l, lenZeroMask x = .ok (lenZeroTag x) := by
  intro x hx
  obtain ⟨xs, rfl⟩ := h x hx
  rfl

/-- `fillna` is the identity when the column being filled has no missing
entries. -/
theorem fillna_no_null :
    ∀ {xs : List Cell}, (∀ x ∈ xs, isNull x = false) → ∀ ys, fillna xs ys = xs := by
  intro xs
  induction xs with
  | nil => intro _ ys; cases ys <;> rfl
  | cons x xt ih =>
    intro h ys
    have hx : isNull x = false := h x (List.mem_cons_self x xt)
    have hrec := ih (fun z hz => h z (List.mem_cons_of_mem _ hz))
    cases ys with
    | nil => simp [fillna, hrec []]
    | cons y yt => simp [fillna, hx, hrec yt]

/-! ## Symbolic evaluation of `clean_data` on the named-column shapes

On a record set whose columns are the eight named detailed/basic sources
(optionally already carrying the five canonical columns of an earlier
pass), every resolution branch is decided by the concrete column names,
so each block reduces to its parses.  The proofs below drive that
reduction with small definitional access facts. -/

theorem priceBlock_mk8 (a b c d e f g h pa pb : List Cell)
    (ha : exMap cleanPriceCell a = .ok pa) (hb : exMap cleanPriceCell b = .ok pb) :
    priceBlock (mk8 a b c d e f g h) = .ok (mk9 pa pb c d e f g h (fillna pb pa), []) := by
  have e1 : hasCol "原价" (mk8 a b c d e f g h) = true := rfl
  have e2 : getCol "原价" (mk8 a b c d e f g h) = a := rfl
  have e3 : setCol "原价" pa (mk8 a b c d e f g h) = mk8 pa b c d e f g h := rfl
  have e4 : hasCol "折扣价" (mk8 pa b c d e f g h) = true := rfl
  have e5 : getCol "折扣价" (mk8 pa b c d e f g h) = b := rfl
  have e6 : setCol "折扣价" pb (mk8 pa b c d e f g h) = mk8 pa pb c d e f g h := rfl
  have e7 : hasCol "折扣价" (mk8 pa pb c d e f g h) = true := rfl
  have e8 : hasCol "原价" (mk8 pa pb c d e f g h) = true := rfl
  have e9 : getCol "折扣价" (mk8 pa pb c d e f g h) = pb := rfl
  have e10 : getCol "原价" (mk8 pa pb c d e f g h) = pa := rfl
  have e11 : setCol "价格" (fillna pb pa) (mk8 pa pb c d e f g h)
      = mk9 pa pb c d e f g h (fillna pb pa) := rfl
  simp only [priceBlock, e1, if_true, e2, ha, Except.map, e3, e4, e5, hb, e6, e7, e8,
    Bool.and_self, e9, e10, e11]

theorem ratingBlock_mk9 (a b c d e f g h p pc rc : List Cell)
    (hc : exMap cleanRatingCell c = .ok pc)
    (hrc : rowFallback isnaMask cleanRatingCell pc d = .ok rc) :
    ratingBlock (mk9 a b c d e f g h p) = .ok (mk10 a b c d e f g h p rc, []) := by
  have e1 : hasCol "详细好评率" (mk9 a b c d e f g h p) = true := rfl
  have e2 : getCol "详细好评率" (mk9 a b c d e f g h p) = c := rfl
  have e3 : setCol "好评率" pc (mk9 a b c d e f g h p) = mk10 a b c d e f g h p pc := rfl
  have e4 : hasCol "基本好评率" (mk10 a b c d e f g h p pc) = true := rfl
  have e5 : hasCol "好评率" (mk10 a b c d e f g h p pc) = true := rfl
  have e6 : getCol "好评率" (mk10 a b c d e f g h p pc) = pc := rfl
  have e7 : getCol "基本好评率" (mk10 a b c d e f g h p pc) = d := rfl
  have e8 : setCol "好评率" rc (mk10 a b c d e f g h p pc) = mk10 a b c d e f g h p rc := rfl
  simp only [ratingBlock, e1, if_true, e2, hc, Except.map, e3, e4, e5, Bool.and_self, e6, e7,
    hrc, e8]

theorem tagsBlock_mk10 (a b c d e f g h p r pe te : List Cell)
    (he : exMap cleanTagsCell e = .ok pe)
    (hte : rowFallback lenZeroMask cleanTagsCell pe f = .ok te) :
    tagsBlock (mk10 a b c d e f g h p r) = .ok (mk11 a b c d e f g h p r te, []) := by
  have e1 : hasCol "详细标签" (mk10 a b c d e f g h p r) = true := rfl
  have e2 : getCol "详细标签" (mk10 a b c d e f g h p r) = e := rfl
  have e3 : setCol "标签列表" pe (mk10 a b c d e f g h p r) = mk11 a b c d e f g h p r pe := rfl
  have e4 : hasCol "基本标签" (mk11 a b c d e f g h p r pe) = true := rfl
  have e5 : hasCol "标签列表" (mk11 a b c d e f g h p r pe) = true := rfl
  have e6 : getCol "标签列表" (mk11 a b c d e f g h p r pe) = pe := rfl
  have e7 : getCol "基本标签" (mk11 a b c d e f g h p r pe) = f := rfl
  have e8 : setCol "标签列表" te (mk11 a b c d e f g h p r pe) = mk11 a b c d e f g h p r te := rfl
  simp only [tagsBlock, e1, if_true, e2, he, Except.map, e3, e4, e5, Bool.and_self, e6, e7,
    hte, e8]

theorem dateBlock_mk11 (a b c d e f g h p r tg pg td : List Cell)
    (hg : exMap cleanDateCell g = .ok pg)
    (htd : rowFallback isnaMask cleanDateCell pg h = .ok td) :
    dateBlock (mk11 a b c d e f g h p r tg)
      = .ok ((mk12 a b c d e f g h p r tg td, dtFlag pg), []) := by
  have e1 : hasCol "详细发布日期" (mk11 a b c d e f g h p r tg) = true := rfl
  have e2 : getCol "详细发布日期" (mk11 a b c d e f g h p r tg) = g := rfl
  have e3 : setCol "发布时间" pg (mk11 a b c d e f g h p r tg)
      = mk12 a b c d e f g h p r tg pg := rfl
  have e4 : hasCol "基本发布时间" (mk12 a b c d e f g h p r tg pg) = true := rfl
  have e5 : hasCol "发布时间" (mk12 a b c d e f g h p r tg pg) = true := rfl
  have e6 : getCol "发布时间" (mk12 a b c d e f g h p r tg pg) = pg := rfl
  have e7 : getCol "基本发布时间" (mk12 a b c d e f g h p r tg pg) = h := rfl
  have e8 : setCol "发布时间" td (mk12 a b c d e f g h p r tg pg)
      = mk12 a b c d e f g h p r tg td := rfl
  simp only [dateBlock, e1, if_true, e2, hg, Except.map, e3, e4, e5, Bool.and_self, e6, e7,
    htd, e8]

theorem yearBlock_mk12 (a b c d e f g h p r tg td : List Cell) :
    yearBlock (mk12 a b c d e f g h p r tg td) true
      = .ok (mk13 a b c d e f g h p r tg td (td.map yearCell)) := by
  have e1 : hasCol "发布时间" (mk12 a b c d e f g h p r tg td) = true := rfl
  have e2 : getCol "发布时间" (mk12 a b c d e f g h p r tg td) = td := rfl
  have e3 : setCol "发布年份" (td.map yearCell) (mk12 a b c d e f g h p r tg td)
      = mk13 a b c d e f g h p r tg td (td.map yearCell) := rfl
  simp only [yearBlock, e1, if_true, e2, e3]

/-- Symbolic run of `clean_data` on an `mk8` record set: all four fields
resolve through the named detailed and basic columns and no warning is
emitted. -/
theorem cleanData_mk8_eval (a b c d e f g h pa pb pc rc pe te pg td : List Cell)
    (ha : exMap cleanPriceCell a = .ok pa) (hb : exMap cleanPriceCell b = .ok pb)
    (hc : exMap cleanRatingCell c = .ok pc)
    (hrc : rowFallback isnaMask cleanRatingCell pc d = .ok rc)
    (he : exMap cleanTagsCell e = .ok pe)
    (hte : rowFallback lenZeroMask cleanTagsCell pe f = .ok te)
    (hg : exMap cleanDateCell g = .ok pg)
    (htd : rowFallback isnaMask cleanDateCell pg h = .ok td)
    (hfl : dtFlag pg = true) :
    cleanData (mk8 a b c d e f g h)
      = ([], .ok (mk13 pa pb c d e f g h (fillna pb pa) rc te td (td.map yearCell))) := by
  have h1 := priceBlock_mk8 a b c d e f g h pa pb ha hb
  have h2 := ratingBlock_mk9 pa pb c d e f g h (fillna pb pa) pc rc hc hrc
  have h3 := tagsBlock_mk10 pa pb c d e f g h (fillna pb pa) rc pe te he hte
  have h4 := dateBlock_mk11 pa pb c d e f g h (fillna pb pa) rc te pg td hg htd
  have h5 := yearBlock_mk12 pa pb c d e f g h (fillna pb pa) rc te td
  simp only [cleanData, h1, h2, h3, h4, hfl, h5, List.append_nil, List.nil_append]

theorem priceBlock_mk13 (a b c d e f g h P R T D Y pa pb : List Cell)
    (ha : exMap cleanPriceCell a = .ok pa) (hb : exMap cleanPriceCell b = .ok pb) :
    priceBlock (mk13 a b c d e f g h P R T D Y)
      = .ok (mk13 pa pb c d e f g h (fillna pb pa) R T D Y, []) := by
  have e1 : hasCol "原价" (mk13 a b c d e f g h P R T D Y) = true := rfl
  have e2 : getCol "原价" (mk13 a b c d e f g h P R T D Y) = a := rfl
  have e3 : setCol "原价" pa (mk13 a b c d e f g h P R T D Y)
      = mk13 pa b c d e f g h P R T D Y := rfl
  have e4 : hasCol "折扣价" (mk13 pa b c d e f g h P R T D Y) = true := rfl
  have e5 : getCol "折扣价" (mk13 pa b c d e f g h P R T D Y) = b := rfl
  have e6 : setCol "折扣价" pb (mk13 pa b c d e f g h P R T D Y)
      = mk13 pa pb c d e f g h P R T D Y := rfl
  have e7 : hasCol "折扣价" (mk13 pa pb c d e f g h P R T D Y) = true := rfl
  have e8 : hasCol "原价" (mk13 pa pb c d e f g h P R T D Y) = true := rfl
  have e9 : getCol "折扣价" (mk13 pa pb c d e f g h P R T D Y) = pb := rfl
  have e10 : getCol "原价" (mk13 pa pb c d e f g h P R T D Y) = pa := rfl
  have e11 : setCol "价格" (fillna pb pa) (mk13 pa pb c d e f g h P R T D Y)
      = mk13 pa pb c d e f g h (fillna pb pa) R T D Y := rfl
  simp only [priceBlock, e1, if_true, e2, ha, Except.map, e3, e4, e5, hb, e6, e7, e8,
    Bool.and_self, e9, e10, e11]

theorem ratingBlock_mk13 (a b c d e f g h P R T D Y pc rc : List Cell)
    (hc : exMap cleanRatingCell c = .ok pc)
    (hrc : rowFallback isnaMask cleanRatingCell pc d = .ok rc) :
    ratingBlock (mk13 a b c d e f g h P R T D Y)
      = .ok (mk13 a b c d e f g h P rc T D Y, []) := by
  have e1 : hasCol "详细好评率" (mk13 a b c d e f g h P R T D Y) = true := rfl
  have e2 : getCol "详细好评率" (mk13 a b c d e f g h P R T D Y) = c := rfl
  have e3 : setCol "好评率" pc (mk13 a b c d e f g h P R T D Y)
      = mk13 a b c d e f g h P pc T D Y := rfl
  have e4 : hasCol "基本好评率" (mk13 a b c d e f g h P pc T D Y) = true := rfl
  have e5 : hasCol "好评率" (mk13 a b c d e f g h P pc T D Y) = true := rfl
  have e6 : getCol "好评率" (mk13 a b c d e f g h P pc T D Y) = pc := rfl
  have e7 : getCol "基本好评率" (mk13 a b c d e f g h P pc T D Y) = d := rfl
  have e8 : setCol "好评率" rc (mk13 a b c d e f g h P pc T D Y)
      = mk13 a b c d e f g h P rc T D Y := rfl
  simp only [ratingBlock, e1, if_true, e2, hc, Except.map, e3, e4, e5, Bool.and_self, e6, e7,
    hrc, e8]

theorem tagsBlock_mk13 (a b c d e f g h P R T D Y pe te : List Cell)
    (he : exMap cleanTagsCell e = .ok pe)
    (hte : rowFallback lenZeroMask cleanTagsCell pe f = .ok te) :
    tagsBlock (mk13 a b c d e f g h P R T D Y)
      = .ok (mk13 a b c d e f g h P R te D Y, []) := by
  have e1 : hasCol "详细标签" (mk13 a b c d e f g h P R T D Y) = true := rfl
  have e2 : getCol "详细标签" (mk13 a b c d e f g h P R T D Y) = e := rfl
  have e3 : setCol "标签列表" pe (mk13 a b c d e f g h P R T D Y)
      = mk13 a b c d e f g h P R pe D Y := rfl
  have e4 : hasCol "基本标签" (mk13 a b c d e f g h P R pe D Y) = true := rfl
  have e5 : hasCol "标签列表" (mk13 a b c d e f g h P R pe D Y) = true := rfl
  have e6 : getCol "标签列表" (mk13 a b c d e f g h P R pe D Y) = pe := rfl
  have e7 : getCol "基本标签" (mk13 a b c d e f g h P R pe D Y) = f := rfl
  have e8 : setCol "标签列表" te (mk13 a b c d e f g h P R pe D Y)
      = mk13 a b c d e f g h P R te D Y := rfl
  simp only [tagsBlock, e1, if_true, e2, he, Except.map, e3, e4, e5, Bool.and_self, e6, e7,
    hte, e8]

theorem dateBlock_mk13 (a b c d e f g h P R T D Y pg td : List Cell)
    (hg : exMap cleanDateCell g = .ok pg)
    (htd : rowFallback isnaMask cleanDateCell pg h = .ok td) :
    dateBlock (mk13 a b c d e f g h P R T D Y)
      = .ok ((mk13 a b c d e f g h P R T td Y, dtFlag pg), []) := by
  have e1 : hasCol "详细发布日期" (mk13 a b c d e f g h P R T D Y) = true := rfl
  have e2 : getCol "详细发布日期" (mk13 a b c d e f g h P R T D Y) = g := rfl
  have e3 : setCol "发布时间" pg (mk13 a b c d e f g h P R T D Y)
      = mk13 a b c d e f g h P R T pg Y := rfl
  have e4 : hasCol "基本发布时间" (mk13 a b c d e f g h P R T pg Y) = true := rfl
  have e5 : hasCol "发布时间" (mk13 a b c d e f g h P R T pg Y) = true := rfl
  have e6 : getCol "发布时间" (mk13 a b c d e f g h P R T pg Y) = pg := rfl
  have e7 : getCol "基本发布时间" (mk13 a b c d e f g h P R T pg Y) = h := rfl
  have e8 : setCol "发布时间" td (mk13 a b c d e f g h P R T pg Y)
      = mk13 a b c d e f g h P R T td Y := rfl
  simp only [dateBlock, e1, if_true, e2, hg, Except.map, e3, e4, e5, Bool.and_self, e6, e7,
    htd, e8]

theorem yearBlock_mk13 (a b c d e f g h P R T td Y : List Cell) :
    yearBlock (mk13 a b c d e f g h P R T td Y) true
      = .ok (mk13 a b c d e f g h P R T td (td.map yearCell)) := by
  have e1 : hasCol "发布时间" (mk13 a b c d e f g h P R T td Y) = true := rfl
  have e2 : getCol "发布时间" (mk13 a b c d e f g h P R T td Y) = td := rfl
  have e3 : setCol "发布年份" (td.map yearCell) (mk13 a b c d e f g h P R T td Y)
      = mk13 a b c d e f g h P R T td (td.map yearCell) := rfl
  simp only [yearBlock, e1, if_true, e2, e3]

/-- Symbolic run of `clean_data` on an already-normalized `mk13` record
set: the named columns resolve exactly as on the raw set, and the five
canonical columns are fully recomputed in place. -/
theorem cleanData_mk13_eval (a b c d e f g h P R T D Y pa pb pc rc pe te pg td : List Cell)
    (ha : exMap cleanPriceCell a = .ok pa) (hb : exMap cleanPriceCell b = .ok pb)
    (hc : exMap cleanRatingCell c = .ok pc)
    (hrc : rowFallback isnaMask cleanRatingCell pc d = .ok rc)
    (he : exMap cleanTagsCell e = .ok pe)
    (hte : rowFallback lenZeroMask cleanTagsCell pe f = .ok te)
    (hg : exMap cleanDateCell g = .ok pg)
    (htd : rowFallback isnaMask cleanDateCell pg h = .ok td)
    (hfl : dtFlag pg = true) :
    cleanData (mk13 a b c d e f g h P R T D Y)
      = ([], .ok (mk13 pa pb c d e f g h (fillna pb pa) rc te td (td.map yearCell))) := by
  have h1 := priceBlock_mk13 a b c d e f g h P R T D Y pa pb ha hb
  have h2 := ratingBlock_mk13 pa pb c d e f g h (fillna pb pa) R T D Y pc rc hc hrc
  have h3 := tagsBlock_mk13 pa pb c d e f g h (fillna pb pa) rc T D Y pe te he hte
  have h4 := dateBlock_mk13 pa pb c d e f g h (fillna pb pa) rc te D Y pg td hg htd
  have h5 := yearBlock_mk13 pa pb c d e f g h (fillna pb pa) rc te td Y
  simp only [cleanData, h1, h2, h3, h4, hfl, h5, List.append_nil, List.nil_append]

/-! ## Shape of cleaned cells and fallback totality -/

theorem cleanPriceCell_ok_num {x v : Cell} (h : cleanPriceCell x = .ok v) : ∃ q, v = .num q := by
  unfold cleanPriceCell at h
  cases hp : cleanPrice x with
  | error e => rw [hp] at h; exact absurd h (by simp [Except.map])
  | ok q =>
    rw [hp] at h
    simp only [Except.map] at h
    injection h with h
    exact ⟨q, h.symm⟩

theorem cleanTagsCell_ok_tags {x v : Cell} (h : cleanTagsCell x = .ok v) : ∃ xs, v = .tags xs := by
  unfold cleanTagsCell at h
  cases hp : cleanTags x with
  | error e => rw [hp] at h; exact absurd h (by simp [Except.map])
  | ok xs =>
    rw [hp] at h
    simp only [Except.map] at h
    injection h with h
    exact ⟨xs, h.symm⟩

theorem fillRows_total {f : Cell → Except String Cell} :
    ∀ (ms : List Bool) (cur basic : List Cell), (∀ y ∈ basic, ∃ v, f y = .ok v) →
      ∃ vs, fillRows f ms cur basic = .ok vs := by
  intro ms
  induction ms with
  | nil => intro cur basic _; exact ⟨[], rfl⟩
  | cons m ms ih =>
    intro cur basic hb
    cases cur with
    | nil => exact ⟨[], rfl⟩
    | cons x xs =>
      cases basic with
      | nil =>
        obtain ⟨vs, hvs⟩ := ih xs [] (by simp)
        exact ⟨x :: vs, by simp [fillRows, hvs]⟩
      | cons y ys =>
        obtain ⟨vs, hvs⟩ := ih xs ys (fun z hz => hb z (List.mem_cons_of_mem _ hz))
        cases m with
        | false => exact ⟨x :: vs, by simp [fillRows, hvs]⟩
        | true =>
          obtain ⟨v, hv⟩ := hb y (List.mem_cons_self y ys)
          exact ⟨v :: vs, by simp [fillRows, hv, hvs]⟩

theorem rowFallback_total {mask : Cell → Except String Bool} {mb : Cell → Bool}
    {f : Cell → Except String Cell} {cur basic : List Cell}
    (hm : ∀ x ∈ cur, mask x = .ok (mb x))
    (hb : ∀ y ∈ basic, ∃ v, f y = .ok v) :
    ∃ vs, rowFallback mask f cur basic = .ok vs := by
  unfold rowFallback
  rw [maskMap_pointwise hm]
  exact fillRows_total (cur.map mb) cur basic hb

theorem yearBlock_mk12_false (a b c d e f g h p r tg td : List Cell) :
    yearBlock (mk12 a b c d e f g h p r tg td) false = .error dtErrMsg := rfl

/-- Symbolic run of `clean_data` on an `mk8` record set with the
datetime flag left open: the run succeeds exactly when some detailed
release date parsed. -/
theorem cleanData_mk8_eval_flag (a b c d e f g h pa pb pc rc pe te pg td : List Cell)
    (ha : exMap cleanPriceCell a = .ok pa) (hb : exMap cleanPriceCell b = .ok pb)
    (hc : exMap cleanRatingCell c = .ok pc)
    (hrc : rowFallback isnaMask cleanRatingCell pc d = .ok rc)
    (he : exMap cleanTagsCell e = .ok pe)
    (hte : rowFallback lenZeroMask cleanTagsCell pe f = .ok te)
    (hg : exMap cleanDateCell g = .ok pg)
    (htd : rowFallback isnaMask cleanDateCell pg h = .ok td) :
    cleanData (mk8 a b c d e f g h)
      = ([], if dtFlag pg then
          .ok (mk13 pa pb c d e f g h (fillna pb pa) rc te td (td.map yearCell))
        else .error dtErrMsg) := by
  cases hfl : dtFlag pg with
  | true =>
    rw [if_pos rfl]
    exact cleanData_mk8_eval a b c d e f g h pa pb pc rc pe te pg td
      ha hb hc hrc he hte hg htd hfl
  | false =>
    rw [if_neg (by simp)]
    have h1 := priceBlock_mk8 a b c d e f g h pa pb ha hb
    have h2 := ratingBlock_mk9 pa pb c d e f g h (fillna pb pa) pc rc hc hrc
    have h3 := tagsBlock_mk10 pa pb c d e f g h (fillna pb pa) rc pe te he hte
    have h4 := dateBlock_mk11 pa pb c d e f g h (fillna pb pa) rc te pg td hg htd
    have h5 := yearBlock_mk12_false pa pb c d e f g h (fillna pb pa) rc te td
    simp only [cleanData, h1, h2, h3, h4, hfl, h5, List.append_nil, List.nil_append]

/-! # Claim theorems -/

/-- C1: each field parser is total on raw cell values — a missing,
string, or numeric cell always yields a typed value or the unknown
marker, never an exception — but the claimed consequence for
normalization fails: on `c1Tbl` every parser succeeds row-wise (the
release dates all parse to unknown), yet `clean_data` raises the `.dt`
accessor error instead of returning a typed record set. -/
theorem C1_parsers_total_but_normalization_raises :
    (∀ s : String, exOk (cleanPrice (.str s)) ∧ exOk (cleanRating (.str s))
      ∧ exOk (cleanTags (.str s)) ∧ exOk (cleanDate (.str s))) ∧
    (∀ q : Rat, exOk (cleanPrice (.num q)) ∧ exOk (cleanRating (.num q))
      ∧ exOk (cleanTags (.num q)) ∧ exOk (cleanDate (.num q))) ∧
    (exOk (cleanPrice .null) ∧ exOk (cleanRating .null)
      ∧ exOk (cleanTags .null) ∧ exOk (cleanDate .null)) ∧
    cleanData c1Tbl = ([], .error dtErrMsg) :=
  ⟨fun _ => ⟨⟨_, rfl⟩, ⟨_, rfl⟩, ⟨_, rfl⟩, ⟨_, rfl⟩⟩,
   fun _ => ⟨⟨_, rfl⟩, ⟨_, rfl⟩, ⟨_, rfl⟩, ⟨_, rfl⟩⟩,
   ⟨⟨_, rfl⟩, ⟨_, rfl⟩, ⟨_, rfl⟩, ⟨_, rfl⟩⟩, rfl⟩

/-- C3: on a record set where no column matches any field by any
resolution rule, all four resolution-failure warnings are emitted and
the fields are populated with their defaults, but processing does not
complete: the all-default release-date column is not datetime-typed and
the year derivation raises. -/
theorem C3_resolution_failure_warns_then_raises :
    cleanData c3Tbl = ([warnPrice, warnRating, warnTags, warnDate], .error dtErrMsg) := rfl

/-- C5: the empty record set does not normalize to an empty output;
`clean_data` emits the four resolution-failure warnings and then raises
on the year derivation, because the empty default release-date column is
not datetime-typed. -/
theorem C5_empty_input_raises :
    cleanData ([] : Table) = ([warnPrice, warnRating, warnTags, warnDate], .error dtErrMsg) := rfl

/-- C10: `clean_data` operates on `df.copy()`; after the call the
caller-visible table is unchanged, and the returned result is computed
from (a copy of) that table. -/
theorem C10_normalize_does_not_mutate_caller (h : Store) (r : Nat) (hr : r < h.length) :
    storeGet (cleanDataCall h r).1 r = storeGet h r ∧
    (cleanDataCall h r).2 = cleanData (storeGet h r) := by
  constructor
  · show (h ++ [_]).getD r [] = h.getD r []
    exact List.getD_append h _ [] r hr
  · rfl

/-- C10 witness: the caller frame of a one-table store is untouched. -/
theorem C10_normalize_does_not_mutate_caller_witness :
    storeGet (cleanDataCall [[("x", [Cell.null])]] 0).1 0 = storeGet [[("x", [Cell.null])]] 0 ∧
    (cleanDataCall [[("x", [Cell.null])]] 0).2 = cleanData (storeGet [[("x", [Cell.null])]] 0) :=
  C10_normalize_does_not_mutate_caller [[("x", [Cell.null])]] 0 (by decide)

/-- C4 counterexample: a coefficient of exactly `-0.3` classifies as
moderate negative, the higher-magnitude band, contradicting the claimed
boundary rule; and one single valid record does not produce the no-data
sentinel (the code only tests emptiness, not fewer-than-2), even though
the coefficient over one pair is NaN. -/
theorem C4_boundary_and_sentinel_counterexample :
    classifyCorr (mkRat (-3) 10) = Band.moderateNeg ∧
    Band.moderateNeg ≠ Band.weakNeg ∧
    plotRatingPriceCorrelation [(mkRat 10 1, some (mkRat 90 1))]
      = some [(mkRat 10 1, mkRat 90 1)] ∧
    some [(mkRat 10 1, mkRat 90 1)] ≠ (none : Option (List (Rat × Rat))) ∧
    corrIsNaN [(mkRat 10 1, mkRat 90 1)] = true :=
  ⟨rfl, by decide, rfl, by decide, rfl⟩

/-- C4 amended: the correlation analytic restricts to rows with a known
rating and positive price; it returns the no-data sentinel exactly when
no such row exists (a single row instead yields a NaN coefficient,
which the classification chain reports as strong negative); otherwise
pandas computes the Pearson coefficient over exactly the restricted
pairs; and the strict-comparison chain sends each positive boundary to
the lower-magnitude band but each non-positive boundary to the band
below it. -/
theorem C4_correlation_amended (rows : List (Rat × Option Rat)) :
    (plotRatingPriceCorrelation rows = none ↔ corrValid rows = []) ∧
    (∀ ps, plotRatingPriceCorrelation rows = some ps → ps = corrValid rows) ∧
    (∀ p r, (p, r) ∈ corrValid rows ↔ (p, some r) ∈ rows ∧ mkRat 0 1 < p) ∧
    (∀ x : Rat × Rat, corrIsNaN [x] = true) ∧
    classifyCorrPy none = Band.strongNeg ∧
    classifyCorr (mkRat 3 10) = Band.weakPos ∧
    classifyCorr (mkRat 1 2) = Band.moderatePos ∧
    classifyCorr (mkRat 0 1) = Band.weakNeg ∧
    classifyCorr (mkRat (-3) 10) = Band.moderateNeg ∧
    classifyCorr (mkRat (-1) 2) = Band.strongNeg := by
  refine ⟨?_, ?_, ?_, fun x => rfl, rfl, rfl, rfl, rfl, rfl, rfl⟩
  · have hplot : plotRatingPriceCorrelation rows
        = if (corrValid rows).isEmpty then none else some (corrValid rows) := rfl
    rw [hplot]
    cases hv : (corrValid rows).isEmpty with
    | true => simp [List.isEmpty_iff.mp hv]
    | false =>
      simp only [Bool.false_eq_true, if_false]
      constructor
      · intro h; simp at h
      · intro h
        rw [h] at hv
        simp at hv
  · intro ps h
    have hplot : plotRatingPriceCorrelation rows
        = if (corrValid rows).isEmpty then none else some (corrValid rows) := rfl
    rw [hplot] at h
    cases hv : (corrValid rows).isEmpty with
    | true => rw [hv] at h; simp at h
    | false =>
      rw [hv] at h
      simp only [Bool.false_eq_true, if_false] at h
      injection h with h
      exact h.symm
  · intro p r
    simp only [corrValid, List.mem_filterMap]
    constructor
    · rintro ⟨⟨p0, r0⟩, hin, hf⟩
      cases r0 with
      | none => simp at hf
      | some r1 =>
        simp only at hf
        by_cases hp : mkRat 0 1 < p0
        · rw [if_pos hp] at hf
          simp only [Option.some.injEq, Prod.mk.injEq] at hf
          obtain ⟨rfl, rfl⟩ := hf
          exact ⟨hin, hp⟩
        · rw [if_neg hp] at hf
          simp at hf
    · rintro ⟨hin, hp⟩
      exact ⟨(p, some r), hin, by simp only [if_pos hp]⟩

/-- C4 witness: the amended correlation contract at a one-row input. -/
theorem C4_correlation_amended_witness :
    (plotRatingPriceCorrelation [(mkRat 10 1, some (mkRat 90 1))] = none
      ↔ corrValid [(mkRat 10 1, some (mkRat 90 1))] = []) ∧
    classifyCorrPy none = Band.strongNeg := by
  have h := C4_correlation_amended [(mkRat 10 1, some (mkRat 90 1))]
  exact ⟨h.1, h.2.2.2.2.1⟩

/-- C7 counterexample: the tag parser does not drop empty pieces — two
adjacent commas leave an empty string in the result. -/
theorem C7_empty_piece_counterexample :
    cleanTags (.str "a,,b") = .ok ["a", "", "b"] ∧
    (["a", "", "b"] : List String) ≠ ["a", "b"] ∧
    ("" ∈ (["a", "", "b"] : List String)) :=
  ⟨rfl, by decide, by decide⟩

/-- The four sequential single-character replacements of the source are
one character-set filter. -/
theorem removeChain_eq (cs : List Char) :
    removeChar '"' (removeChar quoteCh (removeChar ']' (removeChar '[' cs)))
      = cs.filter (fun c => !(['[', ']', quoteCh, '"'].contains c)) := by
  simp only [removeChar, List.filter_filter]
  apply List.filter_congr
  intro c _
  by_cases h1 : c = '['
  · subst h1; decide
  · by_cases h2 : c = ']'
    · subst h2; decide
    · by_cases h3 : c = quoteCh
      · subst h3; decide
      · by_cases h4 : c = '"'
        · subst h4; decide
        · simp [h1, h2, h3, h4]

/-- C7 amended: on every raw cell the tag parser agrees with the spec
contract amended in one point — pieces are stripped but empty pieces
are kept (a cleaned string that is falsy still gives the empty
sequence). -/
theorem C7_tags_parser_amended :
    (∀ s : String, cleanTags (.str s) = .ok (parseTagsSpecAmended (.str s))) ∧
    cleanTags .null = .ok (parseTagsSpecAmended .null) ∧
    (∀ q : Rat, cleanTags (.num q) = .ok (parseTagsSpecAmended (.num q))) ∧
    (∀ dt : Date, cleanTags (.date dt) = .ok (parseTagsSpecAmended (.date dt))) := by
  refine ⟨fun s => ?_, rfl, fun _ => rfl, fun _ => rfl⟩
  show Except.ok _ = Except.ok _
  congr 1
  by_cases h : s = "未知" ∨ s = "[]"
  · simp only [parseTagsSpecAmended, if_pos h]
  · simp only [parseTagsSpecAmended, if_neg h, removeChain_eq]

/-- C7 witness: the amended tag contract evaluated on the spec example. -/
theorem C7_tags_parser_amended_witness :
    cleanTags (.str "['Action', 'Indie']")
      = .ok (parseTagsSpecAmended (.str "['Action', 'Indie']")) ∧
    parseTagsSpecAmended (.str "['Action', 'Indie']") = ["Action", "Indie"] :=
  ⟨C7_tags_parser_amended.1 "['Action', 'Indie']", rfl⟩

/-- C9 counterexample: the flattening step drops empty tag strings, so a
record set whose only tag is the empty string yields the no-data
sentinel even though the flattened multiset of the claim is nonempty. -/
theorem C9_empty_tag_counterexample :
    plotTagsBar [[""]] = none ∧ ([[""]] : List (List String)).flatten ≠ [] :=
  ⟨rfl, by decide⟩

/-- Keys of the counter are drawn from the flattened tag list. -/
theorem firstSeen_mem :
    ∀ (ts acc : List String) (x : String),
      x ∈ ts.foldl (fun a tg => if tg ∈ a then a else a ++ [tg]) acc → x ∈ acc ∨ x ∈ ts := by
  intro ts
  induction ts with
  | nil => intro acc x h; exact .inl h
  | cons t ts ih =>
    intro acc x h
    simp only [List.foldl_cons] at h
    rcases ih _ x h with hin | hin
    · by_cases hmem : t ∈ acc
      · rw [if_pos hmem] at hin
        exact .inl hin
      · rw [if_neg hmem] at hin
        rcases List.mem_append.mp hin with h1 | h1
        · exact .inl h1
        · simp only [List.mem_singleton] at h1
          subst h1
          exact .inr (List.mem_cons_self x ts)
    · exact .inr (List.mem_cons_of_mem _ hin)

/-- C9 amended: the tag-frequency analytic flattens the tag column
dropping empty strings; the no-data sentinel is returned exactly when
nothing remains; otherwise the result is at most 20 pairs, ranked by
descending count, each pair counting one flattened tag, with ties kept
in first-seen order — as on the tie example. -/
theorem C9_tag_frequency_amended (tls : List (List String)) :
    (plotTagsBar tls = none ↔ flattenTags tls = []) ∧
    (∀ out, plotTagsBar tls = some out →
      out.length ≤ 20 ∧
      out.Pairwise (fun x y => y.2 ≤ x.2) ∧
      (∀ p ∈ out, p.2 = (flattenTags tls).count p.1 ∧ p.1 ∈ flattenTags tls)) ∧
    plotTagsBar [["A", "B", "A", "C", "B"]] = some [("A", 2), ("B", 2), ("C", 1)] := by
  have hplot : plotTagsBar tls
      = if (flattenTags tls).isEmpty then none
        else some (mostCommon 20 (tagCounter (flattenTags tls))) := rfl
  refine ⟨?_, ?_, rfl⟩
  · rw [hplot]
    cases hv : (flattenTags tls).isEmpty with
    | true => simp [List.isEmpty_iff.mp hv]
    | false =>
      simp only [Bool.false_eq_true, if_false]
      constructor
      · intro h; simp at h
      · intro h
        rw [h] at hv
        simp at hv
  · intro out h
    rw [hplot] at h
    cases hv : (flattenTags tls).isEmpty with
    | true => rw [hv] at h; simp at h
    | false =>
      rw [hv] at h
      simp only [Bool.false_eq_true, if_false] at h
      injection h with h
      subst h
      refine ⟨List.length_take_le _ _, ?_, ?_⟩
      · have hsorted : List.Sorted countGE
            (List.insertionSort countGE (tagCounter (flattenTags tls))) :=
          List.sorted_insertionSort countGE _
        exact List.Pairwise.sublist (List.take_sublist _ _) hsorted
      · intro p hp
        have hmem : p ∈ List.insertionSort countGE (tagCounter (flattenTags tls)) :=
          List.mem_of_mem_take hp
        have hmem2 : p ∈ tagCounter (flattenTags tls) :=
          (List.perm_insertionSort countGE _).mem_iff.mp hmem
        simp only [tagCounter, List.mem_map] at hmem2
        obtain ⟨tg, htg, rfl⟩ := hmem2
        refine ⟨rfl, ?_⟩
        rcases firstSeen_mem (flattenTags tls) [] tg htg with h1 | h1
        · simp at h1
        · exact h1

/-- C9 witness: the amended tag-frequency contract at the spec example
input. -/
theorem C9_tag_frequency_amended_witness :
    (plotTagsBar [["A", "B", "A", "C", "B"]] = none
      ↔ flattenTags [["A", "B", "A", "C", "B"]] = []) ∧
    plotTagsBar [["A", "B", "A", "C", "B"]] = some [("A", 2), ("B", 2), ("C", 1)] := by
  have h := C9_tag_frequency_amended [["A", "B", "A", "C", "B"]]
  exact ⟨h.1, h.2.2⟩

/-- C8 counterexample: two records with equal ratings and equal prices
both pass the threshold, and the ranking returns them in reverse record
order — pandas reverses a stable ascending argsort to sort descending —
contradicting the claimed original-order tie break. -/
theorem C8_tie_order_counterexample :
    findHighValueGames [gameA, gameB] none = some [gameB, gameA] ∧
    ([gameB, gameA] : List Game) ≠ [gameA, gameB] :=
  ⟨rfl, by decide⟩

/-- C8 amended: the high-value analytic restricts to records with a
known rating and positive price; the no-data sentinel is returned
exactly when the restriction is empty; otherwise the result is a
permutation of the records meeting `rating >= 85` and
`price <= mean`, where the mean is the caller-supplied value or the
mean price of the restriction, ordered by descending rating — but ties
are not kept in original record order (the modelled pandas descending
sort reverses a stable ascending argsort, as the counterexample
shows). -/
theorem C8_high_value_amended (l : List Game) (mp : Option Rat) :
    (findHighValueGames l mp = none ↔ hvValid l = []) ∧
    (∀ g, g ∈ hvValid l ↔ g ∈ l ∧ g.rating.isSome = true ∧ mkRat 0 1 < g.price) ∧
    (∀ out, findHighValueGames l mp = some out →
      out.Perm ((hvValid l).filter (fun g =>
        decide (mkRat 85 1 ≤ ratingVal g) && decide (g.price ≤ mp.getD (meanPrice (hvValid l))))) ∧
      out.Pairwise (fun x y => ratingVal y ≤ ratingVal x) ∧
      (∀ g ∈ out, mkRat 85 1 ≤ ratingVal g ∧ g.price ≤ mp.getD (meanPrice (hvValid l)))) := by
  have hplot : findHighValueGames l mp
      = if (hvValid l).isEmpty then none
        else some (sortDescRating ((hvValid l).filter (fun g =>
          decide (mkRat 85 1 ≤ ratingVal g)
            && decide (g.price ≤ mp.getD (meanPrice (hvValid l)))))) := rfl
  refine ⟨?_, ?_, ?_⟩
  · rw [hplot]
    cases hv : (hvValid l).isEmpty with
    | true => simp [List.isEmpty_iff.mp hv]
    | false =>
      simp only [Bool.false_eq_true, if_false]
      constructor
      · intro h; simp at h
      · intro h
        rw [h] at hv
        simp at hv
  · intro g
    simp [hvValid, List.mem_filter, Bool.and_eq_true, decide_eq_true_eq, and_assoc]
  · intro out h
    rw [hplot] at h
    cases hv : (hvValid l).isEmpty with
    | true => rw [hv] at h; simp at h
    | false =>
      rw [hv] at h
      simp only [Bool.false_eq_true, if_false] at h
      injection h with h
      subst h
      set thr := fun g : Game =>
        decide (mkRat 85 1 ≤ ratingVal g) && decide (g.price ≤ mp.getD (meanPrice (hvValid l)))
        with hthr
      have hperm : (sortDescRating ((hvValid l).filter thr)).Perm ((hvValid l).filter thr) := by
        unfold sortDescRating
        exact (List.reverse_perm _).trans (List.perm_insertionSort ratingLE _)
      refine ⟨hperm, ?_, ?_⟩
      · unfold sortDescRating
        have hsorted : List.Sorted ratingLE
            (List.insertionSort ratingLE ((hvValid l).filter thr)) :=
          List.sorted_insertionSort ratingLE _
        exact List.pairwise_reverse.mpr hsorted
      · intro g hg
        have hmem : g ∈ (hvValid l).filter thr := hperm.mem_iff.mp hg
        have := (List.mem_filter.mp hmem).2
        rw [hthr] at this
        simp only [Bool.and_eq_true, decide_eq_true_eq] at this
        exact this

/-- C8 witness: the amended high-value contract on the spec example
(mean price 25 supplied by the caller): only the cheap highly rated
record survives. -/
theorem C8_high_value_amended_witness :
    (findHighValueGames
        [⟨"x", mkRat 10 1, some (mkRat 90 1)⟩, ⟨"y", mkRat 60 1, some (mkRat 86 1)⟩,
         ⟨"z", mkRat 5 1, some (mkRat 80 1)⟩] (some (mkRat 25 1)) = none
      ↔ hvValid
        [⟨"x", mkRat 10 1, some (mkRat 90 1)⟩, ⟨"y", mkRat 60 1, some (mkRat 86 1)⟩,
         ⟨"z", mkRat 5 1, some (mkRat 80 1)⟩] = []) ∧
    findHighValueGames
        [⟨"x", mkRat 10 1, some (mkRat 90 1)⟩, ⟨"y", mkRat 60 1, some (mkRat 86 1)⟩,
         ⟨"z", mkRat 5 1, some (mkRat 80 1)⟩] (some (mkRat 25 1))
      = some [⟨"x", mkRat 10 1, some (mkRat 90 1)⟩] := by
  have h := C8_high_value_amended
    [⟨"x", mkRat 10 1, some (mkRat 90 1)⟩, ⟨"y", mkRat 60 1, some (mkRat 86 1)⟩,
     ⟨"z", mkRat 5 1, some (mkRat 80 1)⟩] (some (mkRat 25 1))
  exact ⟨h.1, rfl⟩

/-- C2 counterexample: with discount price `未知` and original price
`50`, the parsed discount column holds `0` (the price parser maps the
unknown marker to `0.0`, never to the missing value), so the claimed
row-wise fallback to the original price never fires and the price
column is `0`, not `50`. -/
theorem C2_price_fallback_counterexample :
    (cleanData c2Tbl).2.map (getCol "价格") = .ok [Cell.num (mkRat 0 1)] ∧
    cleanPrice (Cell.str "50") = .ok (mkRat 50 1) ∧
    Cell.num (mkRat 0 1) ≠ Cell.num (mkRat 50 1) :=
  ⟨rfl, rfl, by decide⟩

/-- C2 amended: on a record set with all eight named detailed/basic
source columns, normalization performs a genuine row-wise fallback for
rating, tags and date — each canonical entry is the detailed-derived
value unless its unknown/empty test holds, in which case it is the
basic-derived value — but for price the canonical column is exactly the
parsed discount column: the price parser is total with default `0`, so
the `fillna` fallback to the original price is dead code. -/
theorem C2_rowwise_fallback_amended
    (a b c d e f g h pa pb pc pd pe pf pg ph : List Cell)
    (ha : exMap cleanPriceCell a = .ok pa) (hb : exMap cleanPriceCell b = .ok pb)
    (hc : exMap cleanRatingCell c = .ok pc) (hd : exMap cleanRatingCell d = .ok pd)
    (he : exMap cleanTagsCell e = .ok pe) (hf : exMap cleanTagsCell f = .ok pf)
    (hg : exMap cleanDateCell g = .ok pg) (hh : exMap cleanDateCell h = .ok ph)
    (hcd : c.length = d.length) (hef : e.length = f.length) (hgh : g.length = h.length)
    (hfl : dtFlag pg = true) :
    ∃ out, cleanData (mk8 a b c d e f g h) = ([], .ok out) ∧
      getCol "价格" out = pb ∧
      getCol "好评率" out = List.zipWith (rowChoice isNull) pc pd ∧
      getCol "标签列表" out = List.zipWith (rowChoice lenZeroTag) pe pf ∧
      getCol "发布时间" out = List.zipWith (rowChoice isNull) pg ph := by
  have hlc : pc.length = d.length := (exMap_ok_length hc).trans hcd
  have hle : pe.length = f.length := (exMap_ok_length he).trans hef
  have hlg : pg.length = h.length := (exMap_ok_length hg).trans hgh
  have hrc : rowFallback isnaMask cleanRatingCell pc d
      = .ok (List.zipWith (fun dv bv => if isNull dv then bv else dv) pc pd) :=
    rowFallback_eq_zipWith (isnaMask_pointwise pc) hd hlc
  have htags : ∀ x ∈ pe, ∃ xs, x = .tags xs :=
    exMap_ok_forall (fun v => ∃ xs, v = .tags xs) (fun _ _ hv => cleanTagsCell_ok_tags hv) he
  have hte : rowFallback lenZeroMask cleanTagsCell pe f
      = .ok (List.zipWith (fun dv bv => if lenZeroTag dv then bv else dv) pe pf) :=
    rowFallback_eq_zipWith (lenZeroMask_tags htags) hf hle
  have htd : rowFallback isnaMask cleanDateCell pg h
      = .ok (List.zipWith (fun dv bv => if isNull dv then bv else dv) pg ph) :=
    rowFallback_eq_zipWith (isnaMask_pointwise pg) hh hlg
  have hnn : ∀ x ∈ pb, isNull x = false := by
    intro x hx
    obtain ⟨q, rfl⟩ :=
      exMap_ok_forall (fun v => ∃ q, v = .num q) (fun _ _ hv => cleanPriceCell_ok_num hv) hb x hx
    rfl
  have hfill : fillna pb pa = pb := fillna_no_null hnn pa
  refine ⟨_, cleanData_mk8_eval a b c d e f g h pa pb pc _ pe _ pg _
    ha hb hc hrc he hte hg htd hfl, ?_, ?_, ?_, ?_⟩
  · exact hfill
  · rfl
  · rfl
  · rfl

/-- C2 witness: the amended contract on one concrete row; the detailed
rating, tags and date cells are unknown or empty where the fallback
should fire. -/
theorem C2_rowwise_fallback_amended_witness :
    ∃ out, cleanData (mk8 [Cell.str "49.99"] [Cell.str "未知"] [Cell.str "n/a"]
        [Cell.str "85%"] [Cell.str "[]"] [Cell.str "['Indie']"]
        [Cell.str "2021-03-15"] [Cell.str "2020"]) = ([], .ok out) ∧
      getCol "价格" out = [Cell.num (mkRat 0 1)] ∧
      getCol "好评率" out
        = List.zipWith (rowChoice isNull) [Cell.null] [Cell.num (mkRat 85 1)] ∧
      getCol "标签列表" out
        = List.zipWith (rowChoice lenZeroTag) [Cell.tags []] [Cell.tags ["Indie"]] ∧
      getCol "发布时间" out
        = List.zipWith (rowChoice isNull) [Cell.date ⟨2021, 3, 15⟩] [Cell.date ⟨2020, 1, 1⟩] :=
  C2_rowwise_fallback_amended
    [Cell.str "49.99"] [Cell.str "未知"] [Cell.str "n/a"] [Cell.str "85%"]
    [Cell.str "[]"] [Cell.str "['Indie']"] [Cell.str "2021-03-15"] [Cell.str "2020"]
    [Cell.num (mkRat 4999 100)] [Cell.num (mkRat 0 1)] [Cell.null] [Cell.num (mkRat 85 1)]
    [Cell.tags []] [Cell.tags ["Indie"]] [Cell.date ⟨2021, 3, 15⟩] [Cell.date ⟨2020, 1, 1⟩]
    rfl rfl rfl rfl rfl rfl rfl rfl rfl rfl rfl rfl

/-- C6 counterexample: running normalization on an already normalized
record set is not the identity.  It can raise: `c6Tbl` normalizes to
`c6Out`, but the second run resolves the tag field through the cleaned
`标签列表` column, whose cells are lists, and the missing-value test on
a list raises the ambiguous-truth-value error.  And even the price
parser alone is not idempotent: `0.00001` prints as `1e-05`, whose
digit match re-parses to `1`, not to the stored value. -/
theorem C6_renormalize_counterexample :
    cleanData c6Tbl = ([], .ok c6Out) ∧
    (cleanData c6Out).2 = .error ambiguousMsg ∧
    cleanPrice (.num (mkRat 1 100000)) = .ok (mkRat 1 1) ∧
    mkRat 1 100000 ≠ mkRat 1 1 :=
  ⟨rfl, rfl, rfl, by decide⟩

/-- C6 amended: idempotence does hold on the named-column shape with
plain-decimal prices.  If a record set carries exactly the eight named
detailed/basic source columns with raw cells, normalization succeeds on
it, and every cleaned price is one Python prints in plain decimal
notation (zero, or at least `1e-4` and below `1e16` — a
scientific-notation price such as `1e-05` re-parses to its mantissa
instead), then running normalization on the output returns that output
unchanged (and without warnings): the named columns still resolve
first, the plain-printed price columns re-parse to themselves, and the
other source columns are untouched raw cells that re-parse as
before. -/
theorem C6_renormalize_fixed_on_named_columns
    (a b c d e f g h : List Cell) (w : List String) (out : Table)
    (hra : ∀ x ∈ a, rawCell x = true) (hrb : ∀ x ∈ b, rawCell x = true)
    (hrc2 : ∀ x ∈ c, rawCell x = true) (hrd : ∀ x ∈ d, rawCell x = true)
    (hre2 : ∀ x ∈ e, rawCell x = true) (hrf : ∀ x ∈ f, rawCell x = true)
    (hrg : ∀ x ∈ g, rawCell x = true) (hrh : ∀ x ∈ h, rawCell x = true)
    (hrun : cleanData (mk8 a b c d e f g h) = (w, .ok out))
    (hpa : ∀ x ∈ getCol "原价" out, plainNum x = true)
    (hpb : ∀ x ∈ getCol "折扣价" out, plainNum x = true) :
    cleanData out = ([], .ok out) := by
  obtain ⟨pa, ha⟩ := exMap_total (fun x hx =>
    (cleanPriceCell_raw_shape x (hra x hx)).elim fun q hq => ⟨_, hq.1⟩)
  obtain ⟨pb, hb⟩ := exMap_total (fun x hx =>
    (cleanPriceCell_raw_shape x (hrb x hx)).elim fun q hq => ⟨_, hq.1⟩)
  obtain ⟨pc, hc⟩ := exMap_total (fun x hx => cleanRatingCell_raw x (hrc2 x hx))
  obtain ⟨rc, hrcF⟩ := rowFallback_total (isnaMask_pointwise pc)
    (fun y hy => cleanRatingCell_raw y (hrd y hy))
  obtain ⟨pe, he⟩ := exMap_total (fun x hx =>
    (cleanTagsCell_raw_shape x (hre2 x hx)).elim fun xs hq => ⟨_, hq⟩)
  have htags : ∀ x ∈ pe, ∃ xs, x = .tags xs :=
    exMap_ok_forall (fun v => ∃ xs, v = .tags xs) (fun _ _ hv => cleanTagsCell_ok_tags hv) he
  obtain ⟨te, hte⟩ := rowFallback_total (lenZeroMask_tags htags)
    (fun y hy => (cleanTagsCell_raw_shape y (hrf y hy)).elim fun xs hq => ⟨_, hq⟩)
  obtain ⟨pg, hg⟩ := exMap_total (fun x hx => cleanDateCell_raw x (hrg x hx))
  obtain ⟨td, htd⟩ := rowFallback_total (isnaMask_pointwise pg)
    (fun y hy => cleanDateCell_raw y (hrh y hy))
  have heval := cleanData_mk8_eval_flag a b c d e f g h pa pb pc rc pe te pg td
    ha hb hc hrcF he hte hg htd
  rw [heval] at hrun
  cases hfl : dtFlag pg with
  | false =>
    rw [hfl] at hrun
    rw [if_neg (by simp)] at hrun
    injection hrun with hw hout
    exact absurd hout (by simp)
  | true =>
    rw [hfl, if_pos rfl] at hrun
    injection hrun with hw hout
    injection hout with hout
    subst hout
    exact cleanData_mk13_eval pa pb c d e f g h (fillna pb pa) rc te td (td.map yearCell)
      pa pb pc rc pe te pg td
      (exMap_price_roundtrip hra (fun x hx => hpa x hx) ha)
      (exMap_price_roundtrip hrb (fun x hx => hpb x hx) hb)
      hc hrcF he hte hg htd hfl

/-- C6 witness: the amended idempotence on one concrete named-column
record set: the second run of normalization fixes the first run's
output. -/
theorem C6_renormalize_fixed_on_named_columns_witness :
    cleanData (mk13 [Cell.num (mkRat 49 1)] [Cell.num (mkRat 0 1)]
        [Cell.str "92%"] [Cell.str "80%"] [Cell.str "['Action']"] [Cell.str "[]"]
        [Cell.str "2021-03-15"] [Cell.str "2019"]
        [Cell.num (mkRat 0 1)] [Cell.num (mkRat 92 1)] [Cell.tags ["Action"]]
        [Cell.date ⟨2021, 3, 15⟩] [Cell.num (mkRat 2021 1)])
      = ([], .ok (mk13 [Cell.num (mkRat 49 1)] [Cell.num (mkRat 0 1)]
        [Cell.str "92%"] [Cell.str "80%"] [Cell.str "['Action']"] [Cell.str "[]"]
        [Cell.str "2021-03-15"] [Cell.str "2019"]
        [Cell.num (mkRat 0 1)] [Cell.num (mkRat 92 1)] [Cell.tags ["Action"]]
        [Cell.date ⟨2021, 3, 15⟩] [Cell.num (mkRat 2021 1)])) :=
  C6_renormalize_fixed_on_named_columns
    [Cell.str "49"] [Cell.str "未知"] [Cell.str "92%"] [Cell.str "80%"]
    [Cell.str "['Action']"] [Cell.str "[]"] [Cell.str "2021-03-15"] [Cell.str "2019"]
    []
    (mk13 [Cell.num (mkRat 49 1)] [Cell.num (mkRat 0 1)]
      [Cell.str "92%"] [Cell.str "80%"] [Cell.str "['Action']"] [Cell.str "[]"]
      [Cell.str "2021-03-15"] [Cell.str "2019"]
      [Cell.num (mkRat 0 1)] [Cell.num (mkRat 92 1)] [Cell.tags ["Action"]]
      [Cell.date ⟨2021, 3, 15⟩] [Cell.num (mkRat 2021 1)])
    (by decide) (by decide) (by decide) (by decide)
    (by decide) (by decide) (by decide) (by decide)
    rfl (by decide) (by decide)

end Steam


